import Mathlib

/-!
# systemd-monitoring: status and journal parsing

A shallow embedding of `internal/models/service.go`, `internal/models/log.go`,
the parsing and streaming code of `internal/systemd/client.go` and the list
command of `main.go`.

Modelling conventions.

* A Go `string` is a `List Char` (`Str`): the sequence of code points of a
  valid UTF-8 text.  Positions returned by `Index` and lengths count code
  points.  Every position test of the source compares an index with `0`, `-1`
  or `len` after adding the length of an ASCII delimiter, and every slice is
  taken at such a position, so on valid UTF-8 text the byte-based tests of the
  source select the same branch and the same substring.
* Go `int` and `int64` values are `Int`; the one place where arithmetic could
  wrap (`div *= unit` in `formatMemory`) wraps explicitly.
* What the source obtains from the outside world (the wall clock, the layout
  based time parser, the Unicode case tables, the `%.1f` float printer) is
  gathered in `Env` and every definition is parametric in it.  One reading of
  the clock stands for all the readings of one operation.
* A Go run-time abort (index out of range) is the `Outcome.abort` result.
* The worker goroutine of the live stream is the list of its channel
  operations in program order (`streamWorker`), its deferred calls included.
  The channels are FIFO buffers of the capacities of the source, and the runs
  of the worker against a consumer are the schedules of `runSchedule`: a move
  that would block leaves the state as it is, so a process that never exits
  is a schedule in which the worker makes no further move.
-/

namespace SystemdMonitoring

/-! ## Strings (Go package `strings`, `unicode`) -/

abbrev Str := List Char

/-- Go `unicode.IsSpace`: the code points with the White_Space property. -/
def isSpace (c : Char) : Bool :=
  let n := c.toNat
  (decide (0x09 ≤ n) && decide (n ≤ 0x0D)) || n == 0x20 || n == 0x85 || n == 0xA0 ||
    n == 0x1680 || (decide (0x2000 ≤ n) && decide (n ≤ 0x200A)) || n == 0x2028 ||
    n == 0x2029 || n == 0x202F || n == 0x205F || n == 0x3000

/-- Go `strings.HasPrefix`. -/
def HasPrefix (s p : Str) : Bool := p.isPrefixOf s

/-- Position of the first occurrence of `sep` in `s`, if there is one. -/
def indexFrom (sep : Str) : Str → Option Nat
  | [] => if HasPrefix [] sep then some 0 else none
  | c :: cs =>
    if HasPrefix (c :: cs) sep then some 0
    else (indexFrom sep cs).map (· + 1)

/-- Go `strings.Index`: the first occurrence of `sep` in `s`, or `-1`. -/
def Index (s sep : Str) : Int :=
  match indexFrom sep s with
  | some i => (i : Int)
  | none => -1

/-- Go `strings.Contains`. -/
def Contains (s sub : Str) : Bool := decide (Index s sub ≥ 0)

/-- Position of the first element of `s` that lies in `chars`, if any. -/
def indexAnyFrom (chars : Str) : Str → Option Nat
  | [] => none
  | c :: cs => if chars.contains c then some 0 else (indexAnyFrom chars cs).map (· + 1)

/-- Go `strings.IndexAny`. -/
def IndexAny (s chars : Str) : Int :=
  match indexAnyFrom chars s with
  | some i => (i : Int)
  | none => -1

/-- Go `strings.TrimLeftFunc s unicode.IsSpace`. -/
def trimLeft (s : Str) : Str := s.dropWhile isSpace

/-- Go `strings.TrimRightFunc s unicode.IsSpace`. -/
def trimRight (s : Str) : Str := (s.reverse.dropWhile isSpace).reverse

/-- Go `strings.TrimSpace`: leading and trailing white space removed. -/
def TrimSpace (s : Str) : Str := trimRight (trimLeft s)

/-- Go `strings.HasSuffix`. -/
def HasSuffix (s suffix : Str) : Bool := suffix.isSuffixOf s

/-- Worker of `Fields`: `cur` is the token being read, reversed. -/
def fieldsGo : Str → Str → List Str
  | [], cur => if cur.isEmpty then [] else [cur.reverse]
  | c :: cs, cur =>
    if isSpace c then
      (if cur.isEmpty then fieldsGo cs [] else cur.reverse :: fieldsGo cs [])
    else fieldsGo cs (c :: cur)

/-- Go `strings.Fields`: the maximal runs of non-space characters. -/
def Fields (s : Str) : List Str := fieldsGo s []

/-- Go `strings.Join`. -/
def Join : List Str → Str → Str
  | [], _ => []
  | [x], _ => x
  | x :: y :: rest, sep => x ++ sep ++ Join (y :: rest) sep

/-- The loop of Go `genSplit` for a non-empty separator: at most `k` cuts. -/
def genSplit (sep : Str) : Nat → Str → List Str
  | 0, s => [s]
  | k + 1, s =>
    match indexFrom sep s with
    | none => [s]
    | some m => s.take m :: genSplit sep k (s.drop (m + sep.length))

/-- Go `strings.SplitN` for a non-empty separator (the source only splits on
`"\n"` and `"="`): `n = 0` gives nothing, `n < 0` cuts at every occurrence
(at most `len s` of them exist), `n > 0` cuts at most `n - 1` times. -/
def SplitN (s sep : Str) (n : Int) : List Str :=
  if n = 0 then []
  else if n < 0 then genSplit sep s.length s
  else genSplit sep (n - 1).toNat s

/-- Go `strings.Split`, which is `SplitN` with `n = -1`. -/
def Split (s sep : Str) : List Str := SplitN s sep (-1)

/-- ASCII upper-casing of one character, the fast path of `strings.ToUpper`. -/
def asciiUpper (c : Char) : Char :=
  if 'a'.toNat ≤ c.toNat ∧ c.toNat ≤ 'z'.toNat then Char.ofNat (c.toNat - 32) else c

/-- ASCII lower-casing of one character, the fast path of `strings.ToLower`. -/
def asciiLower (c : Char) : Char :=
  if 'A'.toNat ≤ c.toNat ∧ c.toNat ≤ 'Z'.toNat then Char.ofNat (c.toNat + 32) else c

/-- Go `strings.ToLower` on valid UTF-8, with `unicode.ToLower` as the parameter
`table`; the shape is that of `ToUpper`. -/
def ToLower (table : Char → Char) (s : Str) : Str :=
  if s.all (fun c => decide (c.toNat < 128)) then s.map asciiLower else s.map table

/-- Go `strings.ToUpper` on valid UTF-8: an all-ASCII string is mapped byte by
byte, any other string is mapped code point by code point through
`unicode.ToUpper`, which is the parameter `table`. -/
def ToUpper (table : Char → Char) (s : Str) : Str :=
  if s.all (fun c => decide (c.toNat < 128)) then s.map asciiUpper else s.map table

/-! ## The outside world -/

/-- Instants of Go `time.Time`, as a count of nanoseconds since the Unix
epoch. -/
abbrev Time := Int

/-- What the source reads from its environment or from library tables. -/
structure Env where
  /-- Result of `time.Now()`. -/
  now : Time
  /-- Result of `time.Now().Year()`. -/
  year : Int
  /-- Go `time.Parse layout value`, `none` on a parse error. -/
  timeParse : Str → Str → Option Time
  /-- Go `unicode.ToUpper`. -/
  upperTable : Char → Char
  /-- Go `unicode.ToLower`. -/
  lowerTable : Char → Char
  /-- The text of `fmt.Sprintf("%.1f", float64(a)/float64(b))`. -/
  fmtFloat1 : Int → Int → Str

/-- Go `time.Unix sec 0`: the instant `sec` seconds after the epoch. -/
def timeUnix (sec : Int) : Time := sec * 1000000000

/-- Go `Time.Sub`: the difference `t - u` as a `Duration`, an `int64` count of
nanoseconds; a difference out of range gives the largest or the smallest
duration. -/
def timeSub (t u : Int) : Int :=
  if t - u > 2 ^ 63 - 1 then 2 ^ 63 - 1
  else if t - u < -(2 ^ 63) then -(2 ^ 63)
  else t - u

/-- Go `time.Since t`, which is `time.Now().Sub(t)`. -/
def timeSince (env : Env) (t : Time) : Int := timeSub env.now t

/-- Result of running a piece of Go code: a value, a returned `error`, or a
run-time abort. -/
inductive Outcome (α : Type) where
  | ok : α → Outcome α
  | error : Str → Outcome α
  | abort : Outcome α
  deriving DecidableEq, Repr

/-! ## `internal/models/service.go` -/

/-- Go `type ServiceStatus string`. -/
abbrev ServiceStatus := Str

def StatusRunning : ServiceStatus := "running".toList
def StatusStopped : ServiceStatus := "stopped".toList
def StatusFailed : ServiceStatus := "failed".toList
def StatusUnknown : ServiceStatus := "unknown".toList

structure ServiceInfo where
  Name : Str
  Status : ServiceStatus
  ActiveState : Str
  SubState : Str
  Uptime : Int
  PID : Int
  MemoryUsage : Str
  CheckedAt : Time
  deriving DecidableEq, Repr

def NewServiceInfo (env : Env) (name : Str) : ServiceInfo :=
  { Name := name
    Status := StatusUnknown
    ActiveState := []
    SubState := []
    Uptime := 0
    PID := 0
    MemoryUsage := []
    CheckedAt := env.now }

structure ServiceList where
  Services : List ServiceInfo
  Timestamp : Time
  Total : Int
  Running : Int
  Failed : Int
  Stopped : Int
  deriving DecidableEq, Repr

def NewServiceList (env : Env) : ServiceList :=
  { Services := []
    Timestamp := env.now
    Total := 0
    Running := 0
    Failed := 0
    Stopped := 0 }

/-- Method `(*ServiceList).AddService`: append, count, and bump the counter of
the status when it is one of the three counted ones.  The counters are Go
`int`s; `Total` is the length of the slice, itself an `int`, so none of them can
wrap. -/
def AddService (sl : ServiceList) (service : ServiceInfo) : ServiceList :=
  let sl1 := { sl with Services := sl.Services ++ [service], Total := sl.Total + 1 }
  if service.Status = StatusRunning then { sl1 with Running := sl1.Running + 1 }
  else if service.Status = StatusFailed then { sl1 with Failed := sl1.Failed + 1 }
  else if service.Status = StatusStopped then { sl1 with Stopped := sl1.Stopped + 1 }
  else sl1

/-- Method `(*ServiceList).GetByStatus`. -/
def GetByStatus (sl : ServiceList) (status : ServiceStatus) : List ServiceInfo :=
  sl.Services.filter (fun service => decide (service.Status = status))

/-- Method `(*ServiceList).HasFailures`. -/
def HasFailures (sl : ServiceList) : Bool := decide (sl.Failed > 0)

/-! ## `internal/systemd/client.go`: status classification -/

/-- Method `(*Client).parseStatus`; the receiver is not used by the source. -/
def parseStatus (activeState subState : Str) : ServiceStatus :=
  if activeState = "active".toList ∧ subState = "running".toList then StatusRunning
  else if activeState = "failed".toList then StatusFailed
  else if activeState = "inactive".toList ∨ subState = "dead".toList then StatusStopped
  else StatusUnknown

/-! ## `internal/models/log.go` -/

structure LogEntry where
  Timestamp : Time
  ServiceName : Str
  Message : Str
  Level : Str
  deriving DecidableEq, Repr

def NewLogEntry (env : Env) (serviceName message : Str) : LogEntry :=
  { Timestamp := env.now
    ServiceName := serviceName
    Message := message
    Level := "info".toList }

/-! ## `internal/systemd/client.go`: the journal line parser -/

/-- The text of `fmt.Sprintf("%d", n)`. -/
def fmtInt (n : Int) : Str := (toString n).toList

/-- First block of `parseJournalLine`: the first three fields and the current
year are handed to `time.Parse`; a success replaces the timestamp. -/
def extractTimestamp (env : Env) (line : Str) (entry : LogEntry) : LogEntry :=
  let parts := Fields line
  if parts.length ≥ 3 then
    let dateStr := Join (parts.take 3) " ".toList
    let fullDateStr := dateStr ++ " ".toList ++ fmtInt env.year
    match env.timeParse "Jan 2 15:04:05 2006".toList fullDateStr with
    | some t => { entry with Timestamp := t }
    | none => entry
  else entry

/-- Second block of `parseJournalLine`: the message after `"]: "`, else after
`": "`, each under the guards `colonIndex > 0 && colonIndex+k < len(line)`. -/
def extractMessage (line : Str) (entry : LogEntry) : LogEntry :=
  let colonIndex := Index line "]: ".toList
  if colonIndex > 0 ∧ colonIndex + 3 < (line.length : Int) then
    { entry with Message := line.drop (colonIndex + 3).toNat }
  else
    let colonIndex := Index line ": ".toList
    if colonIndex > 0 ∧ colonIndex + 2 < (line.length : Int) then
      { entry with Message := line.drop (colonIndex + 2).toNat }
    else entry

/-- Third block of `parseJournalLine` ("Format 1"): the text between
`level=` and the next space or double quote, upper-cased, when `spaceIdx > 0`. -/
def extractLevelField (env : Env) (entry : LogEntry) : LogEntry :=
  if Contains entry.Message "level=".toList then
    let levelStart := Index entry.Message "level=".toList
    if levelStart ≠ -1 then
      let remaining := entry.Message.drop (levelStart + 6).toNat
      let spaceIdx := IndexAny remaining " \"".toList
      if spaceIdx > 0 then
        let level := remaining.take spaceIdx.toNat
        { entry with Level := ToUpper env.upperTable level }
      else entry
    else entry
  else entry

/-- The `levels` slice of `parseJournalLine`. -/
def levels : List Str :=
  ["ERROR".toList, "WARN".toList, "WARNING".toList, "INFO".toList, "DEBUG".toList,
    "CRITICAL".toList, "FATAL".toList]

/-- The test of the `for _, level := range levels` loop. -/
def levelPrefixTest (msgUpper level : Str) : Bool :=
  HasPrefix msgUpper ("[".toList ++ level ++ "]".toList) ||
    HasPrefix msgUpper (level ++ ":".toList)

/-- The `for _, level := range levels` loop with its `break`. -/
def scanLevels (msgUpper : Str) : List Str → LogEntry → LogEntry
  | [], entry => entry
  | level :: rest, entry =>
    if levelPrefixTest msgUpper level then { entry with Level := level }
    else scanLevels msgUpper rest entry

/-- Fourth block of `parseJournalLine` ("Format 2"). -/
def extractLevelPrefix (env : Env) (entry : LogEntry) : LogEntry :=
  let msgUpper := ToUpper env.upperTable entry.Message
  scanLevels msgUpper levels entry

/-- Function `parseJournalLine`: the four blocks in source order. -/
def parseJournalLine (env : Env) (line serviceName : Str) : LogEntry :=
  let entry := NewLogEntry env serviceName line
  let entry := extractTimestamp env line entry
  let entry := extractMessage line entry
  let entry := extractLevelField env entry
  extractLevelPrefix env entry

/-! ## `internal/systemd/client.go`: the listing engine -/

/-- The result of `cmd.CombinedOutput()`: the output text, or the error. -/
abbrev CmdResult := Except Str Str

/-- The body of the `for _, line := range lines` loop of `ListServices`, with
its `continue` and `break`. -/
def listLoop (env : Env) : List Str → ServiceList → ServiceList
  | [], serviceList => serviceList
  | raw :: rest, serviceList =>
    let line := TrimSpace raw
    if line = [] then listLoop env rest serviceList
    else if Contains line "UNIT".toList || Contains line "●".toList then
      listLoop env rest serviceList
    else if Contains line "loaded units".toList then serviceList
    else
      let fields := Fields line
      if fields.length < 4 then listLoop env rest serviceList
      else
        let name := fields.getD 0 []
        let activeState := fields.getD 2 []
        let subState := fields.getD 3 []
        let serviceInfo := NewServiceInfo env name
        let serviceInfo :=
          { serviceInfo with
            ActiveState := activeState
            SubState := subState
            Status := parseStatus activeState subState }
        listLoop env rest (AddService serviceList serviceInfo)

/-- Method `(*Client).ListServices`, from the result of the
`systemctl list-units` command on. -/
def ListServices (env : Env) (cmd : CmdResult) : Outcome ServiceList :=
  match cmd with
  | .error err => Outcome.error ("failed to execute systemctl: ".toList ++ err)
  | .ok output => Outcome.ok (listLoop env (Split output "\n".toList) (NewServiceList env))

/-! ## `internal/systemd/client.go`: the status query -/

/-- The value of a decimal digit string, `none` when it is empty or has a
character that is not a digit. -/
def parseDigits : Str → Option Nat
  | [] => none
  | cs =>
    if cs.all (fun c => decide ('0'.toNat ≤ c.toNat ∧ c.toNat ≤ '9'.toNat)) then
      some (cs.foldl (fun acc c => acc * 10 + (c.toNat - '0'.toNat)) 0)
    else none

/-- Go `strconv.ParseInt(s, 10, 64)`: an optional sign and decimal digits, in
the range of `int64`; `none` stands for a returned error. -/
def ParseInt64 (s : Str) : Option Int :=
  match s with
  | [] => none
  | c :: cs =>
    let neg := decide (c = '-')
    let digits := if c = '+' ∨ c = '-' then cs else c :: cs
    match parseDigits digits with
    | none => none
    | some un =>
      if ¬ neg ∧ un ≥ 2 ^ 63 then none
      else if neg ∧ un > 2 ^ 63 then none
      else some (if neg then - (un : Int) else (un : Int))

/-- Go `strconv.Atoi` on a 64-bit platform. -/
def Atoi (s : Str) : Option Int := ParseInt64 s

/-- Wrap-around of `int64` arithmetic. -/
def wrapInt64 (x : Int) : Int := (x + 2 ^ 63) % 2 ^ 64 - 2 ^ 63

/-- The loop `for n := bytes / unit; n >= unit; n /= unit` of `formatMemory`,
from the state `(n, div, exp)` to the final `(div, exp)`. -/
def memLoop (n div exp : Int) : Int × Int :=
  if h : n ≥ 1024 then memLoop (Int.tdiv n 1024) (wrapInt64 (div * 1024)) (exp + 1)
  else (div, exp)
termination_by n.toNat
decreasing_by
  have h1 : Int.tdiv n 1024 = n / 1024 := Int.tdiv_eq_ediv (by omega) (by omega)
  rw [h1]
  omega

/-- Function `formatMemory`: the index expression `"KMGT"[exp]` aborts the run
when `exp` is not below 4. -/
def formatMemory (env : Env) (bytes : Int) : Outcome Str :=
  if bytes < 1024 then Outcome.ok (fmtInt bytes ++ " B".toList)
  else
    let r := memLoop (Int.tdiv bytes 1024) 1024 0
    let div := r.1
    let exp := r.2
    if 0 ≤ exp ∧ exp < 4 then
      Outcome.ok (env.fmtFloat1 bytes div ++ " ".toList ++
        ["KMGT".toList.getD exp.toNat 'K'] ++ "B".toList)
    else Outcome.abort

/-- The `formats` slice of `calculateUptime`. -/
def uptimeFormats : List Str :=
  ["Mon 2006-01-02 15:04:05 MST".toList, "Mon 2006-01-02 15:04:05 -0700".toList,
    "2006-01-02T15:04:05Z07:00".toList, "Mon, 02 Jan 2006 15:04:05 MST".toList]

/-- The `for _, format := range formats` loop of `calculateUptime`: the first
layout that parses wins. -/
def parseWithFormats (env : Env) (timestamp : Str) : List Str → Option Time
  | [] => none
  | format :: rest =>
    match env.timeParse format timestamp with
    | some t => some t
    | none => parseWithFormats env timestamp rest

/-- Function `calculateUptime`; `none` stands for the returned error. -/
def calculateUptime (env : Env) (timestamp : Str) : Option Int :=
  match parseWithFormats env timestamp uptimeFormats with
  | some startTime => some (timeSince env startTime)
  | none =>
    match ParseInt64 timestamp with
    | some usec => some (timeSince env (timeUnix (Int.tdiv usec 1000000)))
    | none => none

/-- The variables that the parsing loop of `GetServiceStatus` updates. -/
structure StatusVars where
  serviceInfo : ServiceInfo
  activeState : Str
  subState : Str
  activeEnterTime : Str
  deriving DecidableEq, Repr

/-- The `switch key` statement of `GetServiceStatus`. -/
def applyField (env : Env) (key value : Str) (st : StatusVars) : Outcome StatusVars :=
  if key = "ActiveState".toList then
    Outcome.ok { st with activeState := value,
                         serviceInfo := { st.serviceInfo with ActiveState := value } }
  else if key = "SubState".toList then
    Outcome.ok { st with subState := value,
                         serviceInfo := { st.serviceInfo with SubState := value } }
  else if key = "MainPID".toList then
    match Atoi value with
    | some pid => Outcome.ok { st with serviceInfo := { st.serviceInfo with PID := pid } }
    | none => Outcome.ok st
  else if key = "MemoryCurrent".toList then
    match ParseInt64 value with
    | some memBytes =>
      match formatMemory env memBytes with
      | Outcome.ok text =>
        Outcome.ok { st with serviceInfo := { st.serviceInfo with MemoryUsage := text } }
      | Outcome.error err => Outcome.error err
      | Outcome.abort => Outcome.abort
    | none => Outcome.ok { st with serviceInfo := { st.serviceInfo with MemoryUsage := value } }
  else if key = "ActiveEnterTimestamp".toList then
    Outcome.ok { st with activeEnterTime := value }
  else Outcome.ok st

/-- One round of the `for _, line := range lines` loop of `GetServiceStatus`. -/
def statusLine (env : Env) (st : StatusVars) (raw : Str) : Outcome StatusVars :=
  let line := TrimSpace raw
  if line = [] then Outcome.ok st
  else
    let parts := SplitN line "=".toList 2
    if parts.length ≠ 2 then Outcome.ok st
    else
      let key := parts.getD 0 []
      let value := parts.getD 1 []
      applyField env key value st

/-- The `for _, line := range lines` loop of `GetServiceStatus`; an abort in
one round ends the run. -/
def statusLoop (env : Env) : List Str → StatusVars → Outcome StatusVars
  | [], st => Outcome.ok st
  | raw :: rest, st =>
    match statusLine env st raw with
    | Outcome.ok st1 => statusLoop env rest st1
    | Outcome.error err => Outcome.error err
    | Outcome.abort => Outcome.abort

/-- Method `(*Client).GetServiceStatus`, from the result of the `systemctl show`
command on; the command is run for the name with the `.service` suffix. -/
def GetServiceStatus (env : Env) (serviceName : Str) (cmd : Str → CmdResult) :
    Outcome ServiceInfo :=
  let serviceName :=
    if ¬ HasSuffix serviceName ".service".toList then serviceName ++ ".service".toList
    else serviceName
  match cmd serviceName with
  | .error err =>
    Outcome.error ("failed to get service status for ".toList ++ serviceName ++ ": ".toList ++ err)
  | .ok output =>
    let serviceInfo := NewServiceInfo env serviceName
    let lines := Split output "\n".toList
    match statusLoop env lines
        { serviceInfo := serviceInfo, activeState := [], subState := [], activeEnterTime := [] } with
    | Outcome.error err => Outcome.error err
    | Outcome.abort => Outcome.abort
    | Outcome.ok st =>
      let serviceInfo := { st.serviceInfo with Status := parseStatus st.activeState st.subState }
      let serviceInfo :=
        if st.activeEnterTime ≠ [] ∧ st.activeEnterTime ≠ "0".toList then
          match calculateUptime env st.activeEnterTime with
          | some uptime => { serviceInfo with Uptime := uptime }
          | none => serviceInfo
        else serviceInfo
      Outcome.ok { serviceInfo with CheckedAt := env.now }

/-! ## `internal/models/log.go`: options -/

structure LogOptions where
  Lines : Int
  Follow : Bool
  Since : Str
  Until : Str
  Priority : Str
  Grep : Str
  deriving DecidableEq, Repr

/-! ## `internal/systemd/client.go`: batch log retrieval -/

/-- The `for _, entry := range entries` loop of `filterLogs`; `filtered` is the
slice built so far and `pattern` is already in lower case. -/
def filterLoop (env : Env) (pattern : Str) : List LogEntry → List LogEntry → List LogEntry
  | [], filtered => filtered
  | entry :: rest, filtered =>
    if Contains (ToLower env.lowerTable entry.Message) pattern then
      filterLoop env pattern rest (filtered ++ [entry])
    else filterLoop env pattern rest filtered

/-- Function `filterLogs`. -/
def filterLogs (env : Env) (entries : List LogEntry) (pattern : Str) : List LogEntry :=
  let pattern := ToLower env.lowerTable pattern
  filterLoop env pattern entries []

/-- The `for _, line := range lines` loop of `parseJournalOutput`. -/
def journalLoop (env : Env) (serviceName : Str) : List Str → List LogEntry
  | [] => []
  | raw :: rest =>
    let line := TrimSpace raw
    if line = [] then journalLoop env serviceName rest
    else parseJournalLine env line serviceName :: journalLoop env serviceName rest

/-- Function `parseJournalOutput`. -/
def parseJournalOutput (env : Env) (output serviceName : Str) : List LogEntry :=
  journalLoop env serviceName (Split output "\n".toList)

/-- The argument list that `GetServiceLogs` builds for `journalctl`. -/
def logArgs (serviceName : Str) (opts : Option LogOptions) : List Str :=
  let args := ["journalctl".toList, "-u".toList, serviceName, "--no-pager".toList]
  match opts with
  | none => args
  | some o =>
    let args := if o.Lines > 0 then args ++ ["-n".toList, fmtInt o.Lines] else args
    let args := if o.Since ≠ [] then args ++ ["--since".toList, o.Since] else args
    let args := if o.Until ≠ [] then args ++ ["--until".toList, o.Until] else args
    if o.Priority ≠ [] then args ++ ["-p".toList, o.Priority] else args

/-- The test `opts != nil && opts.Grep != ""` of both log paths. -/
def grepSet (opts : Option LogOptions) : Bool :=
  match opts with
  | none => false
  | some o => decide (o.Grep ≠ [])

/-- The pattern `opts.Grep`, read only where `grepSet` holds. -/
def grepOf (opts : Option LogOptions) : Str :=
  match opts with
  | none => []
  | some o => o.Grep

/-- Method `(*Client).GetServiceLogs`, with the command runner as a function
from the argument list to the result of `cmd.CombinedOutput()`. -/
def GetServiceLogs (env : Env) (serviceName : Str) (opts : Option LogOptions)
    (cmd : List Str → CmdResult) : Outcome (List LogEntry) :=
  let serviceName :=
    if ¬ HasSuffix serviceName ".service".toList then serviceName ++ ".service".toList
    else serviceName
  match cmd (logArgs serviceName opts) with
  | .error err =>
    Outcome.error ("failed to get logs for ".toList ++ serviceName ++ ": ".toList ++ err)
  | .ok output =>
    let entries := parseJournalOutput env output serviceName
    let entries := if grepSet opts then filterLogs env entries (grepOf opts) else entries
    Outcome.ok entries

/-! ## `internal/systemd/client.go`: the live stream -/

/-- What the worker goroutine of `GetServiceLogsStream` does to its two
channels and to the process, one event per operation. -/
inductive StreamEvent where
  | sendEntry : LogEntry → StreamEvent
  | sendErr : Str → StreamEvent
  | waitCmd : StreamEvent
  | closeErr : StreamEvent
  | closeLog : StreamEvent
  deriving DecidableEq, Repr

/-- The `for scanner.Scan()` loop of the worker over the lines that the scanner
yields: parse, apply the grep test, send. -/
def streamLoop (env : Env) (serviceName : Str) (opts : Option LogOptions) :
    List Str → List StreamEvent
  | [] => []
  | line :: rest =>
    let entry := parseJournalLine env line serviceName
    if grepSet opts ∧
        ¬ Contains (ToLower env.lowerTable entry.Message)
          (ToLower env.lowerTable (grepOf opts)) then
      streamLoop env serviceName opts rest
    else StreamEvent.sendEntry entry :: streamLoop env serviceName opts rest

/-- The deferred calls of the worker as a stack, the last `defer` on top:
`defer close(logChan)`, `defer close(errChan)`, `defer cmd.Wait()`. -/
def streamDeferred : List StreamEvent :=
  let stack : List StreamEvent := []
  let stack := StreamEvent.closeLog :: stack
  let stack := StreamEvent.closeErr :: stack
  let stack := StreamEvent.waitCmd :: stack
  stack

/-- The worker goroutine of `GetServiceLogsStream`: the scan loop over the
lines read, the send of `scanner.Err()` when it is not nil, and then the
deferred calls from the top of the stack down. -/
def streamWorker (env : Env) (serviceName : Str) (opts : Option LogOptions)
    (lines : List Str) (scanErr : Option Str) : List StreamEvent :=
  streamLoop env serviceName opts lines ++
    (match scanErr with
     | some err => [StreamEvent.sendErr err]
     | none => []) ++
    streamDeferred

/-- The argument list that `GetServiceLogsStream` builds for `journalctl`. -/
def streamArgs (serviceName : Str) (opts : Option LogOptions) : List Str :=
  let args := ["journalctl".toList, "-u".toList, serviceName, "-f".toList, "--no-pager".toList]
  match opts with
  | none => args
  | some o =>
    let args := if o.Lines > 0 then args ++ ["-n".toList, fmtInt o.Lines] else args
    let args := if o.Since ≠ [] then args ++ ["--since".toList, o.Since] else args
    if o.Priority ≠ [] then args ++ ["-p".toList, o.Priority] else args

/-- What launching the follow-mode process gives: a failure of `StdoutPipe`, a
failure of `Start`, or a running process, given by the lines its scanner will
yield and the final `scanner.Err()` (`none` at end of stream). -/
inductive Launch where
  | pipeError : Str → Launch
  | startError : Str → Launch
  | started : List Str → Option Str → Launch

/-- Method `(*Client).GetServiceLogsStream`: an error before the launch, or
the trace of the worker goroutine that it starts. -/
def GetServiceLogsStream (env : Env) (serviceName : Str) (opts : Option LogOptions)
    (launch : List Str → Launch) : Outcome (List StreamEvent) :=
  let serviceName :=
    if ¬ HasSuffix serviceName ".service".toList then serviceName ++ ".service".toList
    else serviceName
  match launch (streamArgs serviceName opts) with
  | Launch.pipeError err => Outcome.error ("failed to get stdout pipe: ".toList ++ err)
  | Launch.startError err => Outcome.error ("failed to start journalctl: ".toList ++ err)
  | Launch.started lines scanErr => Outcome.ok (streamWorker env serviceName opts lines scanErr)

/-- The two channels of the stream, the worker in front of them and a consumer
that drains the entry channel: `logChan` and `errChan` are the buffers (of
capacity 100 and 1), `received` is what the consumer has taken so far and
`sawClosed` tells that its receive has reported the closed channel. -/
structure StreamState where
  todo : List StreamEvent
  logChan : List LogEntry
  logClosed : Bool
  errChan : List Str
  errClosed : Bool
  received : List LogEntry
  sawClosed : Bool
  deriving DecidableEq, Repr

/-- The state right after `GetServiceLogsStream` has returned. -/
def streamInit (todo : List StreamEvent) : StreamState :=
  { todo := todo, logChan := [], logClosed := false, errChan := [], errClosed := false,
    received := [], sawClosed := false }

/-- One move of the worker; a send on a full channel blocks (nothing changes). -/
def workerStep (s : StreamState) : StreamState :=
  match s.todo with
  | [] => s
  | StreamEvent.sendEntry e :: rest =>
    if s.logChan.length < 100 then { s with todo := rest, logChan := s.logChan ++ [e] } else s
  | StreamEvent.sendErr err :: rest =>
    if s.errChan.length < 1 then { s with todo := rest, errChan := s.errChan ++ [err] } else s
  | StreamEvent.waitCmd :: rest => { s with todo := rest }
  | StreamEvent.closeErr :: rest => { s with todo := rest, errClosed := true }
  | StreamEvent.closeLog :: rest => { s with todo := rest, logClosed := true }

/-- One receive of the consumer on the entry channel: the oldest buffered
entry, or the report of the closed channel once the buffer is empty; with an
empty buffer on an open channel it blocks (nothing changes). -/
def consumerStep (s : StreamState) : StreamState :=
  match s.logChan with
  | e :: buf => { s with logChan := buf, received := s.received ++ [e] }
  | [] => if s.logClosed then { s with sawClosed := true } else s

/-- Who moves next. -/
inductive Actor where
  | worker : Actor
  | consumer : Actor
  deriving DecidableEq, Repr

/-- The state after the moves of a schedule. -/
def runSchedule : List Actor → StreamState → StreamState
  | [], s => s
  | Actor.worker :: rest, s => runSchedule rest (workerStep s)
  | Actor.consumer :: rest, s => runSchedule rest (consumerStep s)

/-- The entries that a trace sends on the entry channel, in order. -/
def sentEntries : List StreamEvent → List LogEntry
  | [] => []
  | StreamEvent.sendEntry e :: rest => e :: sentEntries rest
  | _ :: rest => sentEntries rest

/-- The errors that a trace sends on the error channel, in order. -/
def sentErrors : List StreamEvent → List Str
  | [] => []
  | StreamEvent.sendErr err :: rest => err :: sentErrors rest
  | _ :: rest => sentErrors rest

/-! ## `main.go`: the list command -/

/-- Step 4 of `handleList`: for a filter other than `all` the entry sequence
is replaced by the entries of that status and nothing else is assigned; an
unknown filter ends the program with exit code 2 (`none`). -/
def handleListFilter (statusFilter : Str) (serviceList : ServiceList) : Option ServiceList :=
  if statusFilter ≠ "all".toList then
    let filterStatus : Option ServiceStatus :=
      if statusFilter = "running".toList then some StatusRunning
      else if statusFilter = "failed".toList then some StatusFailed
      else if statusFilter = "stopped".toList then some StatusStopped
      else none
    match filterStatus with
    | none => none
    | some status =>
      let filteredServices :=
        serviceList.Services.filter (fun service => decide (service.Status = status))
      some { serviceList with Services := filteredServices }
  else some serviceList

/-- The numbers of the footer line that `PrintTable` prints through
`printFooter`: Total, Running, Failed, Stopped. -/
def printFooter (sl : ServiceList) : Int × Int × Int × Int :=
  (sl.Total, sl.Running, sl.Failed, sl.Stopped)

/-- Function `handleList` from the result of the listing command on: the
structure handed to the printer together with the exit code, which is 2 for a
failed listing or an unknown filter and 1 when `HasFailures` holds. -/
def handleList (env : Env) (statusFilter : Str) (cmd : CmdResult) :
    Option ServiceList × Nat :=
  match ListServices env cmd with
  | Outcome.ok serviceList =>
    match handleListFilter statusFilter serviceList with
    | none => (none, 2)
    | some serviceList => (some serviceList, if HasFailures serviceList then 1 else 0)
  | _ => (none, 2)

/-! ## Notions used to state the properties -/

/-- The counters of a list agree with its entries. -/
def Consistent (sl : ServiceList) : Prop :=
  sl.Total = (sl.Services.length : Int) ∧
  sl.Running = ((sl.Services.filter (fun x => decide (x.Status = StatusRunning))).length : Int) ∧
  sl.Failed = ((sl.Services.filter (fun x => decide (x.Status = StatusFailed))).length : Int) ∧
  sl.Stopped = ((sl.Services.filter (fun x => decide (x.Status = StatusStopped))).length : Int)

/-- The text of `fmt.Sprintf("%.1f", float64(a)/float64(b))` for `0 ≤ a < 2^53`
and `b` a power of two: both conversions and the division are then exact, and
the printer rounds the exact quotient to one decimal, a tie going to the even
digit. -/
def fmtOneDecimal (a b : Int) : Str :=
  let q := (10 * a) / b
  let r := (10 * a) % b
  let tenths := if 2 * r > b ∨ (2 * r = b ∧ q % 2 = 1) then q + 1 else q
  fmtInt (tenths / 10) ++ ".".toList ++ fmtInt (tenths % 10)

/-- An environment for evaluating the definitions on concrete inputs: the clock
reads the epoch, the time parser rejects everything, the case tables are the
ASCII ones, and the float printer is `fmtOneDecimal`. -/
def sampleEnv : Env :=
  { now := 0
    year := 2025
    timeParse := fun _ _ => none
    upperTable := asciiUpper
    lowerTable := asciiLower
    fmtFloat1 := fmtOneDecimal }

/-- The loop variables of `GetServiceStatus` before the first line, for the
service name `x.service` in the environment `sampleEnv`. -/
def sampleVars : StatusVars :=
  { serviceInfo := NewServiceInfo sampleEnv "x.service".toList
    activeState := []
    subState := []
    activeEnterTime := [] }

/-- The string `s` is `pre ++ sep ++ post` and no occurrence of `sep` in `s`
starts before the end of `pre`: the decomposition at the first occurrence. -/
def FirstSplit (sep s pre post : Str) : Prop :=
  s = pre ++ sep ++ post ∧ ∀ a b, s = a ++ sep ++ b → pre.length ≤ a.length

/-- The first occurrence of `sep` in `line` is neither at the very start of the
line nor at its very end: something precedes it and something follows it. -/
def Usable (sep line : Str) : Prop :=
  ∃ pre post, FirstSplit sep line pre post ∧ pre ≠ [] ∧ post ≠ []

/-- A row that the listing loop turns into an entry: at least 4 fields and
none of the markers `UNIT`, `●`, `loaded units`. -/
def isValidRow (l : Str) : Bool :=
  decide (4 ≤ (Fields l).length) && !Contains l "UNIT".toList && !Contains l "●".toList &&
    !Contains l "loaded units".toList

/-- The entry of a row: name, active state and sub state are the fields 0, 2
and 3, the status is their classification. -/
def rowEntry (env : Env) (l : Str) : ServiceInfo :=
  { Name := (Fields l).getD 0 []
    Status := parseStatus ((Fields l).getD 2 []) ((Fields l).getD 3 [])
    ActiveState := (Fields l).getD 2 []
    SubState := (Fields l).getD 3 []
    Uptime := 0
    PID := 0
    MemoryUsage := []
    CheckedAt := env.now }

/-- A line at which the listing loop stops: it has the phrase `loaded units`
and neither the header marker `UNIT` nor the bullet glyph. -/
def isStopLine (l : Str) : Bool :=
  Contains l "loaded units".toList && !Contains l "UNIT".toList && !Contains l "●".toList

/-- The keys that the `switch key` statement of `GetServiceStatus` knows. -/
def recognizedKeys : List Str :=
  ["ActiveState".toList, "SubState".toList, "MainPID".toList, "MemoryCurrent".toList,
    "ActiveEnterTimestamp".toList]

/-- The test of `filterLogs`: the lower-cased message contains the lower-cased
pattern. -/
def grepMatch (env : Env) (pattern : Str) (entry : LogEntry) : Bool :=
  Contains (ToLower env.lowerTable entry.Message) (ToLower env.lowerTable pattern)

/-- The two texts whose presence at the start of the upper-cased message makes
the prefix test of a level hold. -/
def levelPrefixes (level : Str) : List Str :=
  ["[".toList ++ level ++ "]".toList, level ++ ":".toList]

/-- The lines of a listing that become entries: the valid rows among the
lines before the first stop line. -/
def listedRows (ls : List Str) : List Str :=
  (ls.takeWhile (fun l => !isStopLine l)).filter isValidRow

/-- The enter time that one line of a status text leaves: the text after
`ActiveEnterTimestamp=` when the trimmed line starts with it, else the one
found before. -/
def enterTimeStep (cur raw : Str) : Str :=
  if HasPrefix (TrimSpace raw) "ActiveEnterTimestamp=".toList then (TrimSpace raw).drop 21
  else cur

/-- The enter time of a status text: the value of its last
`ActiveEnterTimestamp` line, empty when there is none. -/
def enterTimeOf (lines : List Str) : Str := lines.foldl enterTimeStep []

/-- The instant that `calculateUptime` finds for a timestamp: the first layout
that parses, else the integer count of microseconds; `none` when neither
applies. -/
def normalizeTimestamp (env : Env) (timestamp : Str) : Option Time :=
  match parseWithFormats env timestamp uptimeFormats with
  | some startTime => some startTime
  | none =>
    match ParseInt64 timestamp with
    | some usec => some (timeUnix (Int.tdiv usec 1000000))
    | none => none

/-- The environment `sampleEnv` with the clock at 1 700 000 000 seconds after
the epoch. -/
def laterEnv : Env := { sampleEnv with now := 1700000000000000000 }

/-- The grep test of the stream worker on a parsed entry: no pattern is set,
or the entry matches it. -/
def streamKeep (env : Env) (opts : Option LogOptions) (entry : LogEntry) : Bool :=
  !grepSet opts || grepMatch env (grepOf opts) entry

/-- The send on the error channel that follows the scan loop: the read error
when there is one, nothing at a plain end of stream. -/
def errorPart (scanErr : Option Str) : List StreamEvent :=
  match scanErr with
  | some err => [StreamEvent.sendErr err]
  | none => []

/-- What holds of every state of the stream that a schedule reaches from the
trace `trace`: `done` is the part of the trace that the worker has executed. -/
def StreamInv (trace : List StreamEvent) (s : StreamState) : Prop :=
  ∃ done, trace = done ++ s.todo ∧
    s.logClosed = decide (StreamEvent.closeLog ∈ done) ∧
    s.errClosed = decide (StreamEvent.closeErr ∈ done) ∧
    s.received ++ s.logChan = sentEntries done ∧
    s.errChan = sentErrors done ∧
    s.logChan.length ≤ 100 ∧
    (s.sawClosed = true → s.logClosed = true ∧ s.logChan = [] ∧ s.todo = [])

/-- The fields of an entry that do not depend on the clock: service name,
message and level. -/
def entryView (e : LogEntry) : Str × Str × Str := (e.ServiceName, e.Message, e.Level)

/-- The entries that the batch path of `GetServiceLogs` makes of an output
text: `parseJournalOutput`, then `filterLogs` when a pattern is set. -/
def batchEntries (env : Env) (svc : Str) (opts : Option LogOptions) (output : Str) :
    List LogEntry :=
  if grepSet opts then filterLogs env (parseJournalOutput env output svc) (grepOf opts)
  else parseJournalOutput env output svc

/-! ## Theorems -/

/-- C1: `parseStatus` is a total function given by the four ordered rules:
Running for ("active","running"); otherwise Failed for active state "failed";
otherwise Stopped for active state "inactive" or sub state "dead"; otherwise
Unknown.  In particular ("failed", s) is Failed for every s,
("inactive","dead") is Stopped and ("activating","start") is Unknown. -/
theorem parseStatus_rules :
    (∀ a s : Str,
      (a = "active".toList ∧ s = "running".toList → parseStatus a s = StatusRunning) ∧
      (¬ (a = "active".toList ∧ s = "running".toList) → a = "failed".toList →
        parseStatus a s = StatusFailed) ∧
      (¬ (a = "active".toList ∧ s = "running".toList) → a ≠ "failed".toList →
        (a = "inactive".toList ∨ s = "dead".toList) → parseStatus a s = StatusStopped) ∧
      (¬ (a = "active".toList ∧ s = "running".toList) → a ≠ "failed".toList →
        ¬ (a = "inactive".toList ∨ s = "dead".toList) → parseStatus a s = StatusUnknown)) ∧
    parseStatus "active".toList "running".toList = StatusRunning ∧
    (∀ s : Str, parseStatus "failed".toList s = StatusFailed) ∧
    parseStatus "inactive".toList "dead".toList = StatusStopped ∧
    parseStatus "activating".toList "start".toList = StatusUnknown := by
  refine ⟨fun a s => ⟨?_, ?_, ?_, ?_⟩, by decide, ?_, by decide, by decide⟩
  · intro h
    simp [parseStatus, h]
  · intro h1 h2
    simp only [parseStatus, if_neg h1, if_pos h2]
  · intro h1 h2 h3
    simp only [parseStatus, if_neg h1, if_neg h2, if_pos h3]
  · intro h1 h2 h3
    simp only [parseStatus, if_neg h1, if_neg h2, if_neg h3]
  · intro s
    have h : ¬ ("failed".toList = "active".toList) := by decide
    simp [parseStatus, h]

theorem consistent_new (env : Env) : Consistent (NewServiceList env) := by
  simp [Consistent, NewServiceList]

theorem status_consts_distinct :
    StatusRunning ≠ StatusFailed ∧ StatusRunning ≠ StatusStopped ∧
      StatusFailed ≠ StatusStopped := by decide

theorem consistent_add (sl : ServiceList) (x : ServiceInfo) (h : Consistent sl) :
    Consistent (AddService sl x) := by
  obtain ⟨hT, hR, hF, hS⟩ := h
  obtain ⟨d1, d2, d3⟩ := status_consts_distinct
  unfold AddService
  by_cases h1 : x.Status = StatusRunning
  · have e2 : ¬ x.Status = StatusFailed := by rw [h1]; exact d1
    have e3 : ¬ x.Status = StatusStopped := by rw [h1]; exact d2
    simp [Consistent, h1, hT, hR, hF, hS, List.filter_append, d1, d2]
  · by_cases h2 : x.Status = StatusFailed
    · have e3 : ¬ x.Status = StatusStopped := by rw [h2]; exact d3
      simp [Consistent, h1, h2, hT, hR, hF, hS, List.filter_append, d1.symm, d3]
    · by_cases h3 : x.Status = StatusStopped
      · simp [Consistent, h1, h2, h3, hT, hR, hF, hS, List.filter_append, d2.symm, d3.symm]
      · simp [Consistent, h1, h2, h3, hT, hR, hF, hS, List.filter_append]

theorem services_add (sl : ServiceList) (x : ServiceInfo) :
    (AddService sl x).Services = sl.Services ++ [x] := by
  unfold AddService
  split_ifs <;> rfl

theorem services_foldl (sl : ServiceList) (xs : List ServiceInfo) :
    (xs.foldl AddService sl).Services = sl.Services ++ xs := by
  induction xs generalizing sl with
  | nil => simp
  | cons x xs ih => simp [List.foldl_cons, ih, services_add]

theorem consistent_foldl (sl : ServiceList) (xs : List ServiceInfo) (h : Consistent sl) :
    Consistent (xs.foldl AddService sl) := by
  induction xs generalizing sl with
  | nil => simpa using h
  | cons x xs ih => exact ih _ (consistent_add sl x h)

/-- C2: after adding any sequence of entries with `AddService` to a list made
by `NewServiceList`, the entries are exactly the added ones in order, Total is
their number, Running, Failed and Stopped are the numbers of entries with that
status, the length of `GetByStatus` for each counted status is its counter, and
`HasFailures` holds exactly when some entry is Failed.  As the sequence is
arbitrary this holds after each insertion. -/
theorem addService_counters (env : Env) (xs : List ServiceInfo) :
    let sl := xs.foldl AddService (NewServiceList env)
    sl.Services = xs ∧
    sl.Total = (xs.length : Int) ∧
    sl.Running = ((xs.filter (fun x => decide (x.Status = StatusRunning))).length : Int) ∧
    sl.Failed = ((xs.filter (fun x => decide (x.Status = StatusFailed))).length : Int) ∧
    sl.Stopped = ((xs.filter (fun x => decide (x.Status = StatusStopped))).length : Int) ∧
    ((GetByStatus sl StatusRunning).length : Int) = sl.Running ∧
    ((GetByStatus sl StatusFailed).length : Int) = sl.Failed ∧
    ((GetByStatus sl StatusStopped).length : Int) = sl.Stopped ∧
    (HasFailures sl = true ↔ ∃ x ∈ xs, x.Status = StatusFailed) := by
  intro sl
  have hs : sl.Services = xs := by
    simp [sl, services_foldl, NewServiceList]
  obtain ⟨hT, hR, hF, hS⟩ := consistent_foldl _ xs (consistent_new env)
  rw [show xs.foldl AddService (NewServiceList env) = sl from rfl] at hT hR hF hS
  rw [hs] at hT hR hF hS
  refine ⟨hs, hT, hR, hF, hS, ?_, ?_, ?_, ?_⟩
  · simp [GetByStatus, hs, hR]
  · simp [GetByStatus, hs, hF]
  · simp [GetByStatus, hs, hS]
  · simp only [HasFailures, hF, decide_eq_true_eq, gt_iff_lt, Nat.cast_pos, List.length_pos]
    constructor
    · intro hne
      obtain ⟨y, hy⟩ := List.exists_mem_of_ne_nil _ hne
      rw [List.mem_filter] at hy
      exact ⟨y, hy.1, by simpa using hy.2⟩
    · rintro ⟨y, hy, hst⟩
      apply List.ne_nil_of_mem (a := y)
      rw [List.mem_filter]
      exact ⟨hy, by simpa using hst⟩

/-! ### Library facts: `HasPrefix`, `Index`, `Contains` -/

theorem hasPrefix_iff (s p : Str) : HasPrefix s p = true ↔ ∃ t, s = p ++ t := by
  unfold HasPrefix
  rw [List.isPrefixOf_iff_prefix]
  constructor
  · rintro ⟨t, ht⟩
    exact ⟨t, ht.symm⟩
  · rintro ⟨t, ht⟩
    exact ⟨t, ht.symm⟩

theorem indexFrom_some (sep : Str) :
    ∀ (s : Str) (i : Nat), indexFrom sep s = some i →
      ∃ pre post, s = pre ++ sep ++ post ∧ pre.length = i ∧
        ∀ a b, s = a ++ sep ++ b → i ≤ a.length := by
  intro s
  induction s with
  | nil =>
    intro i h
    simp only [indexFrom] at h
    split_ifs at h with hp
    obtain ⟨t, ht⟩ := (hasPrefix_iff _ _).1 hp
    have hsep : sep = [] := (List.append_eq_nil.1 ht.symm).1
    have ht2 : t = [] := (List.append_eq_nil.1 ht.symm).2
    injection h with h
    subst h
    exact ⟨[], [], by simp [hsep], rfl, fun a b _ => Nat.zero_le _⟩
  | cons c cs ih =>
    intro i h
    simp only [indexFrom] at h
    split_ifs at h with hp
    · obtain ⟨t, ht⟩ := (hasPrefix_iff _ _).1 hp
      injection h with h
      subst h
      exact ⟨[], t, by simpa using ht, rfl, fun a b _ => Nat.zero_le _⟩
    · cases hj : indexFrom sep cs with
      | none => rw [hj] at h; simp at h
      | some j =>
        rw [hj] at h
        simp only [Option.map_some', Option.some.injEq] at h
        obtain ⟨pre, post, hs, hl, hmin⟩ := ih j hj
        refine ⟨c :: pre, post, by simp [hs], by simp [hl, h], ?_⟩
        intro a b hab
        cases a with
        | nil =>
          exfalso
          apply hp
          exact (hasPrefix_iff _ _).2 ⟨b, by simpa using hab⟩
        | cons a0 a1 =>
          simp only [List.cons_append, List.cons.injEq] at hab
          have := hmin a1 b hab.2
          simp only [List.length_cons]
          omega

theorem indexFrom_none (sep : Str) :
    ∀ (s : Str), indexFrom sep s = none → ∀ a b, s ≠ a ++ sep ++ b := by
  intro s
  induction s with
  | nil =>
    intro h a b hab
    simp only [indexFrom] at h
    split_ifs at h with hp
    apply hp
    have h1 := List.append_eq_nil.1 hab.symm
    have h2 := List.append_eq_nil.1 h1.1
    exact (hasPrefix_iff _ _).2 ⟨[], by simp [h2.2]⟩
  | cons c cs ih =>
    intro h a b hab
    simp only [indexFrom] at h
    split_ifs at h with hp
    cases hj : indexFrom sep cs with
    | some j => rw [hj] at h; simp at h
    | none =>
      cases a with
      | nil =>
        apply hp
        exact (hasPrefix_iff _ _).2 ⟨b, by simpa using hab⟩
      | cons a0 a1 =>
        simp only [List.cons_append, List.cons.injEq] at hab
        exact ih hj a1 b hab.2

theorem indexFrom_of_firstSplit {sep s pre post : Str} (h : FirstSplit sep s pre post) :
    indexFrom sep s = some pre.length := by
  cases hi : indexFrom sep s with
  | none => exact absurd h.1 (indexFrom_none sep s hi pre post)
  | some i =>
    obtain ⟨pre1, post1, hs, hl, hmin⟩ := indexFrom_some sep s i hi
    have h1 := hmin pre post h.1
    have h2 := h.2 pre1 post1 hs
    congr 1
    omega

theorem firstSplit_of_indexFrom {sep s : Str} {i : Nat} (h : indexFrom sep s = some i) :
    FirstSplit sep s (s.take i) (s.drop (i + sep.length)) ∧ i + sep.length ≤ s.length := by
  obtain ⟨pre, post, hs, hl, hmin⟩ := indexFrom_some sep s i h
  have e1 : s.take i = pre := by
    rw [hs, ← hl, List.append_assoc, List.take_left]
  have e2 : s.drop (i + sep.length) = post := by
    rw [hs, ← hl, ← List.length_append, List.drop_left]
  refine ⟨⟨by rw [e1, e2]; exact hs, ?_⟩, ?_⟩
  · intro a b hab
    rw [e1, hl]
    exact hmin a b hab
  · rw [hs]
    simp only [List.length_append]
    omega

theorem drop_of_firstSplit {sep s pre post : Str} (h : FirstSplit sep s pre post) :
    s.drop (pre.length + sep.length) = post := by
  rw [h.1, ← List.length_append, List.drop_left]

theorem index_of_firstSplit {sep s pre post : Str} (h : FirstSplit sep s pre post) :
    Index s sep = (pre.length : Int) := by
  unfold Index
  rw [indexFrom_of_firstSplit h]

theorem index_eq_neg_one_iff (s sep : Str) :
    Index s sep = -1 ↔ ∀ a b, s ≠ a ++ sep ++ b := by
  unfold Index
  cases hi : indexFrom sep s with
  | none =>
    simp only [true_iff]
    exact indexFrom_none sep s hi
  | some i =>
    obtain ⟨pre, post, hs, _, _⟩ := indexFrom_some sep s i hi
    constructor
    · intro h
      simp only at h
      omega
    · intro h
      exact absurd hs (h pre post)

theorem index_ge_neg_one (s sep : Str) : -1 ≤ Index s sep := by
  unfold Index
  cases indexFrom sep s with
  | none => simp
  | some i => simp only; omega

theorem contains_iff (s sub : Str) :
    Contains s sub = true ↔ ∃ a b, s = a ++ sub ++ b := by
  unfold Contains
  rw [decide_eq_true_eq]
  constructor
  · intro h
    by_contra hc
    push_neg at hc
    have := (index_eq_neg_one_iff s sub).2 hc
    omega
  · rintro ⟨a, b, hab⟩
    by_contra hc
    have h1 := index_ge_neg_one s sub
    have h2 : Index s sub = -1 := by omega
    exact (index_eq_neg_one_iff s sub).1 h2 a b hab

theorem contains_eq_false_iff (s sub : Str) :
    Contains s sub = false ↔ ∀ a b, s ≠ a ++ sub ++ b := by
  rw [← Bool.not_eq_true, contains_iff]
  push_neg
  rfl

/-! ### The journal line parser, block by block -/

theorem extractTimestamp_fields (env : Env) (line : Str) (e : LogEntry) :
    (extractTimestamp env line e).ServiceName = e.ServiceName ∧
    (extractTimestamp env line e).Message = e.Message ∧
    (extractTimestamp env line e).Level = e.Level := by
  unfold extractTimestamp
  simp only
  split_ifs
  · split <;> exact ⟨rfl, rfl, rfl⟩
  · exact ⟨rfl, rfl, rfl⟩

theorem extractMessage_fields (line : Str) (e : LogEntry) :
    (extractMessage line e).ServiceName = e.ServiceName ∧
    (extractMessage line e).Level = e.Level := by
  unfold extractMessage
  simp only
  split_ifs <;> exact ⟨rfl, rfl⟩

theorem extractLevelField_fields (env : Env) (e : LogEntry) :
    (extractLevelField env e).ServiceName = e.ServiceName ∧
    (extractLevelField env e).Message = e.Message := by
  unfold extractLevelField
  simp only
  split_ifs <;> exact ⟨rfl, rfl⟩

theorem scanLevels_fields (m : Str) (ls : List Str) (e : LogEntry) :
    (scanLevels m ls e).ServiceName = e.ServiceName ∧
    (scanLevels m ls e).Message = e.Message := by
  induction ls with
  | nil => exact ⟨rfl, rfl⟩
  | cons l ls ih =>
    simp only [scanLevels]
    split_ifs
    · exact ⟨rfl, rfl⟩
    · exact ih

theorem scanLevels_none (m : Str) (ls : List Str) (e : LogEntry)
    (h : ∀ l ∈ ls, levelPrefixTest m l = false) : scanLevels m ls e = e := by
  induction ls with
  | nil => rfl
  | cons l ls ih =>
    simp only [scanLevels]
    rw [h l (List.mem_cons_self _ _)]
    simp only [Bool.false_eq_true, if_false]
    exact ih (fun x hx => h x (List.mem_cons_of_mem _ hx))

theorem scanLevels_first (m : Str) (before after : List Str) (l : Str) (e : LogEntry)
    (hb : ∀ x ∈ before, levelPrefixTest m x = false) (hl : levelPrefixTest m l = true) :
    scanLevels m (before ++ l :: after) e = { e with Level := l } := by
  induction before with
  | nil => simp [scanLevels, hl]
  | cons x xs ih =>
    simp only [List.cons_append, scanLevels]
    rw [hb x (List.mem_cons_self _ _)]
    simp only [Bool.false_eq_true, if_false]
    exact ih (fun y hy => hb y (List.mem_cons_of_mem _ hy))

/-- The message that `parseJournalLine` extracts from a line. -/
theorem parseJournalLine_message_eq (env : Env) (line svc : Str) :
    (parseJournalLine env line svc).Message =
      (extractMessage line (NewLogEntry env svc line)).Message := by
  unfold parseJournalLine extractLevelPrefix
  simp only
  rw [(scanLevels_fields _ _ _).2, (extractLevelField_fields _ _).2]
  unfold extractMessage
  simp only
  split_ifs <;> simp [(extractTimestamp_fields _ _ _).2.1]

theorem parseJournalLine_serviceName (env : Env) (line svc : Str) :
    (parseJournalLine env line svc).ServiceName = svc := by
  unfold parseJournalLine extractLevelPrefix
  simp only
  rw [(scanLevels_fields _ _ _).1, (extractLevelField_fields _ _).1,
    (extractMessage_fields _ _).1, (extractTimestamp_fields _ _ _).1]
  rfl

/-- The entry on which the two level strategies of `parseJournalLine` work:
the level is still the default and the message is the extracted one. -/
theorem parseJournalLine_level_eq (env : Env) (line svc : Str) :
    (parseJournalLine env line svc).Level =
      (scanLevels (ToUpper env.upperTable (parseJournalLine env line svc).Message) levels
        (extractLevelField env
          { Timestamp := env.now, ServiceName := svc,
            Message := (parseJournalLine env line svc).Message,
            Level := "info".toList })).Level := by
  rw [parseJournalLine_message_eq]
  unfold parseJournalLine extractLevelPrefix
  simp only
  rw [(extractLevelField_fields _ _).2]
  have key : ∀ e1 e2 : LogEntry, e1.Message = e2.Message → e1.Level = e2.Level →
      ∀ m, (scanLevels m levels (extractLevelField env e1)).Level =
        (scanLevels m levels (extractLevelField env e2)).Level := by
    intro e1 e2 hm hl m
    have h1 : (extractLevelField env e1).Level = (extractLevelField env e2).Level := by
      unfold extractLevelField
      simp only [hm]
      split_ifs <;> simp [hl]
    generalize extractLevelField env e1 = x1 at h1
    generalize extractLevelField env e2 = x2 at h1
    generalize levels = ls
    induction ls with
    | nil => exact h1
    | cons l ls ih =>
      simp only [scanLevels]
      split_ifs
      · rfl
      · exact ih
  have hmsg : (extractMessage line (extractTimestamp env line (NewLogEntry env svc line))).Message
      = (extractMessage line (NewLogEntry env svc line)).Message := by
    unfold extractMessage
    simp only
    split_ifs <;> simp [(extractTimestamp_fields _ _ _).2.1]
  rw [hmsg]
  apply key
  · exact hmsg
  · rw [(extractMessage_fields _ _).2, (extractTimestamp_fields _ _ _).2.2]
    rfl

theorem guard_iff_usable (sep line : Str) :
    (Index line sep > 0 ∧ Index line sep + (sep.length : Int) < (line.length : Int)) ↔
      Usable sep line := by
  constructor
  · rintro ⟨h0, h1⟩
    unfold Index at h0 h1
    cases hi : indexFrom sep line with
    | none => rw [hi] at h0; simp at h0
    | some i =>
      rw [hi] at h0 h1
      simp only at h0 h1
      obtain ⟨hfs, hlen⟩ := firstSplit_of_indexFrom hi
      refine ⟨_, _, hfs, ?_, ?_⟩
      · intro hnil
        have := congrArg List.length hnil
        simp only [List.length_take, List.length_nil] at this
        omega
      · intro hnil
        have := congrArg List.length hnil
        simp only [List.length_drop, List.length_nil] at this
        omega
  · rintro ⟨pre, post, hfs, hpre, hpost⟩
    rw [index_of_firstSplit hfs]
    have hl : line.length = pre.length + sep.length + post.length := by
      rw [hfs.1]
      simp only [List.length_append]
    have h1 : 0 < pre.length := List.length_pos.2 hpre
    have h2 : 0 < post.length := List.length_pos.2 hpost
    constructor <;> omega

theorem drop_index_of_firstSplit {sep line pre post : Str} (h : FirstSplit sep line pre post) :
    line.drop (Index line sep + (sep.length : Int)).toNat = post := by
  rw [index_of_firstSplit h]
  have : ((pre.length : Int) + (sep.length : Int)).toNat = pre.length + sep.length := by omega
  rw [this]
  exact drop_of_firstSplit h

theorem extractMessage_message (line : Str) (e : LogEntry) :
    (extractMessage line e).Message =
      if Index line "]: ".toList > 0 ∧ Index line "]: ".toList + 3 < (line.length : Int) then
        line.drop (Index line "]: ".toList + 3).toNat
      else if Index line ": ".toList > 0 ∧ Index line ": ".toList + 2 < (line.length : Int) then
        line.drop (Index line ": ".toList + 2).toNat
      else e.Message := by
  unfold extractMessage
  simp only
  split_ifs <;> rfl

/-- C3: `parseJournalLine` is total and keeps the service name; the empty line
gives the default entry; a line without `": "` (hence without `"]: "`) is its
own message; and if moreover that message has no `level=` marker and passes no
level-prefix test, the level is the default "info". -/
theorem parseJournalLine_total (env : Env) (line svc : Str) :
    (parseJournalLine env line svc).ServiceName = svc ∧
    parseJournalLine env [] svc = NewLogEntry env svc [] ∧
    (Contains line ": ".toList = false →
      Contains line "]: ".toList = false ∧ (parseJournalLine env line svc).Message = line) ∧
    (Contains line ": ".toList = false → Contains line "level=".toList = false →
      (∀ l ∈ levels, levelPrefixTest (ToUpper env.upperTable line) l = false) →
      (parseJournalLine env line svc).Level = "info".toList) := by
  have hno : Contains line ": ".toList = false →
      Contains line "]: ".toList = false ∧ (parseJournalLine env line svc).Message = line := by
    intro hc
    have h2 : ∀ a b, line ≠ a ++ ": ".toList ++ b := (contains_eq_false_iff _ _).1 hc
    have h3 : ∀ a b, line ≠ a ++ "]: ".toList ++ b := by
      intro a b hab
      apply h2 (a ++ [']']) b
      rw [hab]
      simp
    refine ⟨(contains_eq_false_iff _ _).2 h3, ?_⟩
    rw [parseJournalLine_message_eq, extractMessage_message,
      (index_eq_neg_one_iff _ _).2 h2, (index_eq_neg_one_iff _ _).2 h3]
    simp [NewLogEntry]
  refine ⟨parseJournalLine_serviceName env line svc, ?_, hno, ?_⟩
  · simp [parseJournalLine, extractLevelPrefix, extractLevelField, extractMessage,
      extractTimestamp, NewLogEntry, Fields, fieldsGo, Index, indexFrom, HasPrefix, Contains,
      ToUpper, scanLevels, levels, levelPrefixTest]
  · intro hc hl ht
    rw [parseJournalLine_level_eq, (hno hc).2, scanLevels_none _ _ _ ht]
    unfold extractLevelField
    simp only [hl, Bool.false_eq_true, if_false]

/-- C4, refuted as stated: for the line `a]: ` the substring after the first
`"]: "` is empty but the message is the whole line, and for the line `: ab`
(no `"]: "`) the substring after the first `": "` is `ab` but the message is
the whole line. -/
theorem parseJournalLine_message_counterexample :
    (Contains "a]: ".toList "]: ".toList = true ∧
      "a]: ".toList.drop (Index "a]: ".toList "]: ".toList + 3).toNat = [] ∧
      (parseJournalLine sampleEnv "a]: ".toList "svc".toList).Message = "a]: ".toList) ∧
    (Contains ": ab".toList "]: ".toList = false ∧ Contains ": ab".toList ": ".toList = true ∧
      ": ab".toList.drop (Index ": ab".toList ": ".toList + 2).toNat = "ab".toList ∧
      (parseJournalLine sampleEnv ": ab".toList "svc".toList).Message = ": ab".toList) := by
  decide

/-- C4, amended: the message is the text after the first `"]: "` when that
occurrence is neither at the very start nor at the very end of the line;
otherwise the text after the first `": "` when that occurrence is neither at
the very start nor at the very end; otherwise the full raw line. -/
theorem parseJournalLine_message (env : Env) (line svc : Str) :
    (∀ pre post, FirstSplit "]: ".toList line pre post → pre ≠ [] → post ≠ [] →
      (parseJournalLine env line svc).Message = post) ∧
    (∀ pre post, ¬ Usable "]: ".toList line → FirstSplit ": ".toList line pre post →
      pre ≠ [] → post ≠ [] → (parseJournalLine env line svc).Message = post) ∧
    (¬ Usable "]: ".toList line → ¬ Usable ": ".toList line →
      (parseJournalLine env line svc).Message = line) := by
  have g1 := guard_iff_usable "]: ".toList line
  have g2 := guard_iff_usable ": ".toList line
  have l1 : (("]: ".toList.length : Nat) : Int) = 3 := by decide
  have l2 : ((": ".toList.length : Nat) : Int) = 2 := by decide
  rw [l1] at g1
  rw [l2] at g2
  rw [parseJournalLine_message_eq, extractMessage_message]
  refine ⟨?_, ?_, ?_⟩
  · intro pre post hfs hpre hpost
    rw [if_pos (g1.2 ⟨pre, post, hfs, hpre, hpost⟩)]
    have := drop_index_of_firstSplit hfs
    rw [l1] at this
    exact this
  · intro pre post hn hfs hpre hpost
    rw [if_neg (fun h => hn (g1.1 h)), if_pos (g2.2 ⟨pre, post, hfs, hpre, hpost⟩)]
    have := drop_index_of_firstSplit hfs
    rw [l2] at this
    exact this
  · intro hn1 hn2
    rw [if_neg (fun h => hn1 (g1.1 h)), if_neg (fun h => hn2 (g2.1 h))]
    rfl

theorem firstSplit_intro {sep s pre post : Str} (h1 : s = pre ++ sep ++ post)
    (h2 : indexFrom sep s = some pre.length) : FirstSplit sep s pre post := by
  refine ⟨h1, ?_⟩
  obtain ⟨_, _, _, _, hmin⟩ := indexFrom_some sep s _ h2
  exact hmin

/-- C3 at the line `plain text`: it is its own message and its level is "info". -/
theorem parseJournalLine_total_witness :
    (parseJournalLine sampleEnv "plain text".toList "svc".toList).Message = "plain text".toList ∧
    (parseJournalLine sampleEnv "plain text".toList "svc".toList).Level = "info".toList :=
  ⟨((parseJournalLine_total sampleEnv "plain text".toList "svc".toList).2.2.1 (by decide)).2,
    (parseJournalLine_total sampleEnv "plain text".toList "svc".toList).2.2.2
      (by decide) (by decide) (by decide)⟩

/-- C4 (amended) at three lines: a usable `"]: "`, an unusable `"]: "` followed
by a usable `": "`, and a line where neither is usable. -/
theorem parseJournalLine_message_witness :
    (parseJournalLine sampleEnv "msi clash[1397]: started".toList "svc".toList).Message
      = "started".toList ∧
    (parseJournalLine sampleEnv "]: WARN: disk".toList "svc".toList).Message
      = "WARN: disk".toList ∧
    (parseJournalLine sampleEnv "ready]: ".toList "svc".toList).Message
      = "ready]: ".toList :=
  ⟨(parseJournalLine_message sampleEnv "msi clash[1397]: started".toList "svc".toList).1
      "msi clash[1397".toList "started".toList
      (firstSplit_intro (by decide) (by decide)) (by decide) (by decide),
    (parseJournalLine_message sampleEnv "]: WARN: disk".toList "svc".toList).2.1
      "]".toList "WARN: disk".toList
      (by rw [← guard_iff_usable]; decide)
      (firstSplit_intro (by decide) (by decide)) (by decide) (by decide),
    (parseJournalLine_message sampleEnv "ready]: ".toList "svc".toList).2.2
      (by rw [← guard_iff_usable]; decide) (by rw [← guard_iff_usable]; decide)⟩

theorem indexAnyFrom_split (chars : Str) (c : Char) (rest : Str) (hc : chars.contains c = true) :
    ∀ txt : Str, (∀ x ∈ txt, chars.contains x = false) →
      indexAnyFrom chars (txt ++ c :: rest) = some txt.length := by
  intro txt
  induction txt with
  | nil =>
    intro _
    simp only [List.nil_append, indexAnyFrom, hc, if_true, List.length_nil]
  | cons t ts ih =>
    intro h
    simp only [List.cons_append, indexAnyFrom, h t (List.mem_cons_self _ _),
      Bool.false_eq_true, if_false, List.length_cons, List.append_eq]
    rw [ih (fun x hx => h x (List.mem_cons_of_mem _ hx))]
    rfl

/-- C5, refuted as stated: the message `level= x` contains `level=`, has a
space after the marker and passes no level-prefix test; the text between the
marker and that space is empty, yet the level is not the (empty) upper-cased
text but the default "info". -/
theorem parseJournalLine_levelField_counterexample :
    (parseJournalLine sampleEnv "level= x".toList "svc".toList).Message
      = [] ++ "level=".toList ++ ([] ++ ' ' :: "x".toList) ∧
    (∀ l ∈ levels, levelPrefixTest (ToUpper sampleEnv.upperTable
      (parseJournalLine sampleEnv "level= x".toList "svc".toList).Message) l = false) ∧
    (parseJournalLine sampleEnv "level= x".toList "svc".toList).Level = "info".toList ∧
    (parseJournalLine sampleEnv "level= x".toList "svc".toList).Level
      ≠ ToUpper sampleEnv.upperTable [] := by
  decide

/-- C5, amended: when the extracted message contains `level=`, the text
between the first `level=` and the next space or double quote is not empty,
and the message passes no level-prefix test, the level is that text in upper
case. -/
theorem parseJournalLine_levelField (env : Env) (line svc pre txt rest : Str) (c : Char)
    (hmsg : FirstSplit "level=".toList (parseJournalLine env line svc).Message pre
      (txt ++ c :: rest))
    (hc : c = ' ' ∨ c = '"')
    (htxt : ∀ x ∈ txt, x ≠ ' ' ∧ x ≠ '"')
    (hne : txt ≠ [])
    (hB : ∀ l ∈ levels, levelPrefixTest
      (ToUpper env.upperTable (parseJournalLine env line svc).Message) l = false) :
    (parseJournalLine env line svc).Level = ToUpper env.upperTable txt := by
  rw [parseJournalLine_level_eq, scanLevels_none _ _ _ hB]
  generalize (parseJournalLine env line svc).Message = msg at hmsg
  have hcont : Contains msg "level=".toList = true :=
    (contains_iff _ _).2 ⟨pre, _, hmsg.1⟩
  have hidx : Index msg "level=".toList = (pre.length : Int) := index_of_firstSplit hmsg
  have hdrop : msg.drop ((pre.length : Int) + 6).toNat = txt ++ c :: rest := by
    have := drop_index_of_firstSplit hmsg
    rw [hidx] at this
    exact this
  have hcc : " \"".toList.contains c = true := by
    rcases hc with h | h <;> subst h <;> decide
  have hany : IndexAny (txt ++ c :: rest) " \"".toList = (txt.length : Int) := by
    unfold IndexAny
    rw [indexAnyFrom_split _ c rest hcc txt]
    intro x hx
    have := htxt x hx
    simp only [String.toList, List.contains_eq_any_beq, List.any_cons, List.any_nil,
      Bool.or_false, Bool.or_eq_false_iff, beq_eq_false_iff_ne, ne_eq]
    exact ⟨this.1, this.2⟩
  have hpos : (txt.length : Int) > 0 := by
    have := List.length_pos.2 hne
    omega
  unfold extractLevelField
  simp only [hcont, if_true, hidx, hdrop, hany]
  rw [if_pos (by omega), if_pos hpos]
  simp

/-- C5 (amended) at the line of the specification: message `level=error
msg="boom"` and level `ERROR`. -/
theorem parseJournalLine_levelField_witness :
    (parseJournalLine sampleEnv
      "Dec 22 19:32:42 msi clash[1397]: level=error msg=\"boom\"".toList "svc".toList).Message
      = "level=error msg=\"boom\"".toList ∧
    (parseJournalLine sampleEnv
      "Dec 22 19:32:42 msi clash[1397]: level=error msg=\"boom\"".toList "svc".toList).Level
      = "ERROR".toList :=
  ⟨by decide,
    (parseJournalLine_levelField sampleEnv
      "Dec 22 19:32:42 msi clash[1397]: level=error msg=\"boom\"".toList "svc".toList
      [] "error".toList "msg=\"boom\"".toList ' '
      (firstSplit_intro (by decide) (by decide)) (by decide) (by decide) (by decide)
      (by decide)).trans (by decide)⟩

/-- C6: when the upper-cased extracted message starts with `[L]` or `L:` for
some `L` of the level list, the level of the result is the first such `L` in
list order, whatever the `level=` strategy had extracted; the test is made on
the upper-cased message, so it is case-insensitive: any other line whose
extracted message has the same upper-case form gets the same level. -/
theorem parseJournalLine_levelPrefix (env : Env) (line svc : Str)
    (before after : List Str) (l : Str)
    (hl : levels = before ++ l :: after)
    (hb : ∀ x ∈ before, levelPrefixTest
      (ToUpper env.upperTable (parseJournalLine env line svc).Message) x = false)
    (ht : levelPrefixTest
      (ToUpper env.upperTable (parseJournalLine env line svc).Message) l = true) :
    (parseJournalLine env line svc).Level = l ∧
    ∀ line2 svc2 : Str,
      ToUpper env.upperTable (parseJournalLine env line2 svc2).Message
        = ToUpper env.upperTable (parseJournalLine env line svc).Message →
      (parseJournalLine env line2 svc2).Level = l := by
  constructor
  · rw [parseJournalLine_level_eq, hl, scanLevels_first _ _ _ _ _ hb ht]
  · intro line2 svc2 heq
    rw [← heq] at hb ht
    rw [parseJournalLine_level_eq, hl, scanLevels_first _ _ _ _ _ hb ht]

/-- C6 at `[WARN] disk almost full`, at its lower-case form, and at
`[error] level=debug x`, where the `level=` strategy alone gives `DEBUG`. -/
theorem parseJournalLine_levelPrefix_witness :
    (parseJournalLine sampleEnv "[WARN] disk almost full".toList "svc".toList).Level
      = "WARN".toList ∧
    (parseJournalLine sampleEnv "[warn] Disk Almost Full".toList "other".toList).Level
      = "WARN".toList ∧
    ((extractLevelField sampleEnv
        (NewLogEntry sampleEnv "svc".toList "[error] level=debug x".toList)).Level
      = "DEBUG".toList ∧
      (parseJournalLine sampleEnv "[error] level=debug x".toList "svc".toList).Level
        = "ERROR".toList) :=
  ⟨(parseJournalLine_levelPrefix sampleEnv "[WARN] disk almost full".toList "svc".toList
      ["ERROR".toList] ["WARNING".toList, "INFO".toList, "DEBUG".toList, "CRITICAL".toList,
        "FATAL".toList] "WARN".toList (by decide) (by decide) (by decide)).1,
    (parseJournalLine_levelPrefix sampleEnv "[WARN] disk almost full".toList "svc".toList
      ["ERROR".toList] ["WARNING".toList, "INFO".toList, "DEBUG".toList, "CRITICAL".toList,
        "FATAL".toList] "WARN".toList (by decide) (by decide) (by decide)).2
      "[warn] Disk Almost Full".toList "other".toList (by decide),
    by decide,
    (parseJournalLine_levelPrefix sampleEnv "[error] level=debug x".toList "svc".toList
      [] ["WARN".toList, "WARNING".toList, "INFO".toList, "DEBUG".toList, "CRITICAL".toList,
        "FATAL".toList] "ERROR".toList (by decide) (by decide) (by decide)).1⟩

/-! ### Library facts: trimming, fields, splitting -/

/-- Dropping leading white space keeps the occurrences of a pattern that does
not start with white space. -/
theorem occurs_trimLeft (s p : Str) (h : Char) (t : Str) (hp : p = h :: t)
    (hh : isSpace h = false) :
    (∃ a b, trimLeft s = a ++ p ++ b) ↔ ∃ a b, s = a ++ p ++ b := by
  unfold trimLeft
  induction s with
  | nil => simp
  | cons c cs ih =>
    by_cases hc : isSpace c = true
    · rw [List.dropWhile_cons_of_pos hc, ih]
      constructor
      · rintro ⟨a, b, hab⟩
        exact ⟨c :: a, b, by simp [hab]⟩
      · rintro ⟨a, b, hab⟩
        cases a with
        | nil =>
          exfalso
          rw [hp] at hab
          simp only [List.nil_append, List.cons_append, List.cons.injEq] at hab
          rw [hab.1, hh] at hc
          exact Bool.false_ne_true hc
        | cons a0 a1 =>
          simp only [List.cons_append, List.cons.injEq] at hab
          exact ⟨a1, b, hab.2⟩
    · rw [List.dropWhile_cons_of_neg hc]

theorem occurs_reverse (s p : Str) :
    (∃ a b, s.reverse = a ++ p.reverse ++ b) ↔ ∃ a b, s = a ++ p ++ b := by
  constructor
  · rintro ⟨a, b, hab⟩
    refine ⟨b.reverse, a.reverse, ?_⟩
    have := congrArg List.reverse hab
    simpa [List.append_assoc] using this
  · rintro ⟨a, b, hab⟩
    refine ⟨b.reverse, a.reverse, ?_⟩
    rw [hab]
    simp [List.append_assoc]

theorem occurs_trimRight (s p : Str) (h : Char) (t : Str) (hp : p.reverse = h :: t)
    (hh : isSpace h = false) :
    (∃ a b, trimRight s = a ++ p ++ b) ↔ ∃ a b, s = a ++ p ++ b := by
  rw [← occurs_reverse (trimRight s) p, ← occurs_reverse s p]
  unfold trimRight
  rw [List.reverse_reverse]
  exact occurs_trimLeft s.reverse p.reverse h t hp hh

/-- A pattern that neither starts nor ends with white space occurs in the
trimmed line exactly when it occurs in the line. -/
theorem contains_trimSpace (s p : Str) (h1 : Char) (t1 : Str) (h2 : Char) (t2 : Str)
    (hp1 : p = h1 :: t1) (hh1 : isSpace h1 = false)
    (hp2 : p.reverse = h2 :: t2) (hh2 : isSpace h2 = false) :
    Contains (TrimSpace s) p = Contains s p := by
  have key : Contains (TrimSpace s) p = true ↔ Contains s p = true := by
    rw [contains_iff, contains_iff]
    unfold TrimSpace
    rw [occurs_trimRight _ p h2 t2 hp2 hh2, occurs_trimLeft _ p h1 t1 hp1 hh1]
  cases hA : Contains (TrimSpace s) p <;> cases hB : Contains s p <;> simp_all

theorem contains_trim_unit (s : Str) :
    Contains (TrimSpace s) "UNIT".toList = Contains s "UNIT".toList :=
  contains_trimSpace s _ 'U' "NIT".toList 'T' "INU".toList rfl (by decide) rfl (by decide)

theorem contains_trim_bullet (s : Str) :
    Contains (TrimSpace s) "●".toList = Contains s "●".toList :=
  contains_trimSpace s _ '●' [] '●' [] rfl (by decide) rfl (by decide)

theorem contains_trim_loaded (s : Str) :
    Contains (TrimSpace s) "loaded units".toList = Contains s "loaded units".toList :=
  contains_trimSpace s _ 'l' "oaded units".toList 's' "tinu dedaol".toList rfl (by decide)
    rfl (by decide)

theorem fieldsGo_spaces (ws : Str) (hws : ∀ c ∈ ws, isSpace c = true) (cur : Str) :
    fieldsGo ws cur = fieldsGo [] cur := by
  induction ws generalizing cur with
  | nil => rfl
  | cons w ws ih =>
    have hw := hws w (List.mem_cons_self _ _)
    have ih2 := ih (fun c hc => hws c (List.mem_cons_of_mem _ hc)) []
    simp only [fieldsGo, hw, if_true, ih2]
    simp

theorem fieldsGo_append_spaces (s ws : Str) (hws : ∀ c ∈ ws, isSpace c = true) (cur : Str) :
    fieldsGo (s ++ ws) cur = fieldsGo s cur := by
  induction s generalizing cur with
  | nil => simpa using fieldsGo_spaces ws hws cur
  | cons c cs ih =>
    simp only [List.cons_append, fieldsGo]
    split_ifs <;> simp only [List.append_eq, ih]

theorem fields_trimLeft (s : Str) : Fields (trimLeft s) = Fields s := by
  unfold Fields trimLeft
  induction s with
  | nil => rfl
  | cons c cs ih =>
    by_cases hc : isSpace c = true
    · rw [List.dropWhile_cons_of_pos hc, ih]
      simp [fieldsGo, hc]
    · rw [List.dropWhile_cons_of_neg hc]

theorem trimRight_append_spaces (s : Str) :
    ∃ ws, (∀ c ∈ ws, isSpace c = true) ∧ s = trimRight s ++ ws := by
  refine ⟨(s.reverse.takeWhile isSpace).reverse, ?_, ?_⟩
  · intro c hc
    rw [List.mem_reverse] at hc
    exact List.mem_takeWhile_imp hc
  · unfold trimRight
    rw [← List.reverse_append, List.takeWhile_append_dropWhile, List.reverse_reverse]

theorem fields_trimRight (s : Str) : Fields (trimRight s) = Fields s := by
  obtain ⟨ws, hws, hs⟩ := trimRight_append_spaces s
  unfold Fields
  conv_rhs => rw [hs]
  rw [fieldsGo_append_spaces _ ws hws]

theorem fields_trimSpace (s : Str) : Fields (TrimSpace s) = Fields s := by
  unfold TrimSpace
  rw [fields_trimRight, fields_trimLeft]

theorem trimSpace_blank (s : Str) (h : ∀ c ∈ s, isSpace c = true) : TrimSpace s = [] := by
  unfold TrimSpace trimLeft trimRight
  rw [List.dropWhile_eq_nil_iff.2 h]
  rfl

theorem contains_nil_left (p : Str) (h : Char) (t : Str) (hp : p = h :: t) :
    Contains [] p = false := by
  rw [contains_eq_false_iff]
  intro a b hab
  rw [hp] at hab
  have := congrArg List.length hab
  simp at this
  omega

theorem firstSplit_char (c : Char) (pre post : Str) (hc : c ∉ pre) :
    FirstSplit [c] (pre ++ [c] ++ post) pre post := by
  refine ⟨rfl, ?_⟩
  intro a b hab
  rw [List.append_assoc, List.append_assoc, List.append_eq_append_iff] at hab
  rcases hab with ⟨a1, ha, _⟩ | ⟨c1, hpre, hc1⟩
  · rw [ha]
    simp
  · cases c1 with
    | nil => simp [hpre]
    | cons x xs =>
      exfalso
      simp only [List.singleton_append, List.cons_append, List.cons.injEq] at hc1
      apply hc
      rw [hpre, hc1.1]
      simp

theorem indexFrom_char_none (c : Char) (s : Str) (hc : c ∉ s) : indexFrom [c] s = none := by
  cases hi : indexFrom [c] s with
  | none => rfl
  | some i =>
    exfalso
    obtain ⟨pre, post, hs, _, _⟩ := indexFrom_some [c] s i hi
    apply hc
    rw [hs]
    simp

theorem mem_of_indexFrom_char_ne_none (c : Char) (s : Str) (h : indexFrom [c] s = none) :
    c ∉ s := by
  intro hc
  obtain ⟨a, b, hab⟩ := List.append_of_mem hc
  exact indexFrom_none [c] s h a b (by simp [hab])

theorem genSplit_char_cut (c : Char) (k : Nat) (pre post : Str) (hc : c ∉ pre) :
    genSplit [c] (k + 1) (pre ++ [c] ++ post) = pre :: genSplit [c] k post := by
  have hfs := firstSplit_char c pre post hc
  simp only [genSplit, indexFrom_of_firstSplit hfs]
  have h1 : (pre ++ [c] ++ post).take pre.length = pre := by
    rw [List.append_assoc, List.take_left]
  have h2 : (pre ++ [c] ++ post).drop (pre.length + [c].length) = post := drop_of_firstSplit hfs
  rw [h1, h2]

theorem genSplit_char_last (c : Char) (k : Nat) (s : Str) (hc : c ∉ s) :
    genSplit [c] k s = [s] := by
  cases k with
  | zero => rfl
  | succ k => simp only [genSplit, indexFrom_char_none c s hc]

theorem join_cons_cons (x y : Str) (rest : List Str) (sep : Str) :
    Join (x :: y :: rest) sep = x ++ sep ++ Join (y :: rest) sep := rfl

theorem genSplit_join (c : Char) :
    ∀ (ls : List Str) (l : Str) (k : Nat), (∀ x ∈ l :: ls, c ∉ x) → ls.length ≤ k →
      genSplit [c] k (Join (l :: ls) [c]) = l :: ls := by
  intro ls
  induction ls with
  | nil =>
    intro l k h _
    exact genSplit_char_last c k l (h l (List.mem_cons_self _ _))
  | cons l2 rest ih =>
    intro l k h hk
    cases k with
    | zero => simp at hk
    | succ k =>
      rw [join_cons_cons, genSplit_char_cut c k l _ (h l (List.mem_cons_self _ _)),
        ih l2 k (fun x hx => h x (List.mem_cons_of_mem _ hx))
          (by simpa using hk)]

theorem join_length_ge (c : Char) :
    ∀ (ls : List Str) (l : Str), ls.length ≤ (Join (l :: ls) [c]).length := by
  intro ls
  induction ls with
  | nil => intro l; simp
  | cons l2 rest ih =>
    intro l
    rw [join_cons_cons]
    have := ih l2
    simp only [List.length_append, List.length_cons, List.length_nil]
    omega

theorem split_eq_genSplit (s sep : Str) : Split s sep = genSplit sep s.length s := by
  simp [Split, SplitN]

/-- Splitting the join of lines gives the lines back. -/
theorem split_join (c : Char) (l : Str) (ls : List Str) (h : ∀ x ∈ l :: ls, c ∉ x) :
    Split (Join (l :: ls) [c]) [c] = l :: ls := by
  rw [split_eq_genSplit]
  exact genSplit_join c ls l _ h (join_length_ge c ls l)

theorem genSplit_pieces (c : Char) :
    ∀ (k : Nat) (s : Str), s.length ≤ k → ∀ x ∈ genSplit [c] k s, c ∉ x := by
  intro k
  induction k with
  | zero =>
    intro s hs x hx
    have : s = [] := List.length_eq_zero.1 (by omega)
    subst this
    simp only [genSplit, List.mem_singleton] at hx
    subst hx
    simp
  | succ k ih =>
    intro s hs x hx
    simp only [genSplit] at hx
    cases hi : indexFrom [c] s with
    | none =>
      rw [hi] at hx
      simp only [List.mem_singleton] at hx
      subst hx
      exact mem_of_indexFrom_char_ne_none c _ hi
    | some m =>
      rw [hi] at hx
      simp only [List.mem_cons] at hx
      obtain ⟨hfs, hlen⟩ := firstSplit_of_indexFrom hi
      rcases hx with hx | hx
      · subst hx
        intro hmem
        obtain ⟨hs2, hmin⟩ := hfs
        generalize s.drop (m + [c].length) = post at hs2 hmin
        generalize s.take m = pre at hs2 hmin hmem
        obtain ⟨a, b, hab⟩ := List.append_of_mem hmem
        have h3 : s = a ++ [c] ++ (b ++ [c] ++ post) := by
          rw [hs2, hab]
          simp [List.append_assoc]
        have h4 := hmin a _ h3
        rw [hab] at h4
        simp only [List.length_append, List.length_cons] at h4
        omega
      · apply ih _ _ x hx
        simp only [List.length_drop, List.length_cons, List.length_nil]
        simp only [List.length_cons, List.length_nil] at hlen
        omega

theorem split_pieces (c : Char) (s : Str) : ∀ x ∈ Split s [c], c ∉ x := by
  rw [split_eq_genSplit]
  exact genSplit_pieces c s.length s (Nat.le_refl _)

/-! ### The listing loop -/

theorem trimSpace_ne_nil_of_fields (raw : Str) (h : (Fields raw) ≠ []) : TrimSpace raw ≠ [] := by
  intro hnil
  apply h
  rw [← fields_trimSpace, hnil]
  rfl

/-- A header line, a blank line, or a line with fewer than 4 fields that lacks
the phrase `loaded units` is passed over. -/
theorem listLoop_skip (env : Env) (raw : Str) (rest : List Str) (sl : ServiceList)
    (h : Contains raw "UNIT".toList = true ∨ (∀ c ∈ raw, isSpace c = true) ∨
      ((Fields raw).length < 4 ∧ Contains raw "loaded units".toList = false)) :
    listLoop env (raw :: rest) sl = listLoop env rest sl := by
  simp only [listLoop, contains_trim_unit, contains_trim_bullet, contains_trim_loaded,
    fields_trimSpace]
  split_ifs with h1 h2 h3 h4
  · rfl
  · rfl
  · exfalso
    rcases h with h | h | h
    · exact h2 (by rw [h]; rfl)
    · exact h1 (trimSpace_blank raw h)
    · rw [h.2] at h3
      exact Bool.false_ne_true h3
  · rfl
  · exfalso
    rcases h with h | h | h
    · exact h2 (by rw [h]; rfl)
    · exact h1 (trimSpace_blank raw h)
    · exact h4 h.1

theorem listLoop_valid (env : Env) (raw : Str) (rest : List Str) (sl : ServiceList)
    (h : isValidRow raw = true) :
    listLoop env (raw :: rest) sl = listLoop env rest (AddService sl (rowEntry env raw)) := by
  simp only [isValidRow, Bool.and_eq_true, decide_eq_true_eq, Bool.not_eq_true',
    ] at h
  obtain ⟨⟨⟨h4, hU⟩, hB⟩, hL⟩ := h
  have hne : TrimSpace raw ≠ [] := by
    apply trimSpace_ne_nil_of_fields
    intro hnil
    rw [hnil] at h4
    simp at h4
  simp only [listLoop, contains_trim_unit, contains_trim_bullet, contains_trim_loaded,
    fields_trimSpace, hU, hB, hL, if_neg hne, Bool.or_self, Bool.false_eq_true, if_false,
    if_neg (Nat.not_lt.2 h4)]
  rfl

theorem listLoop_stop (env : Env) (raw : Str) (rest : List Str) (sl : ServiceList)
    (h : isStopLine raw = true) : listLoop env (raw :: rest) sl = sl := by
  simp only [isStopLine, Bool.and_eq_true, Bool.not_eq_true'] at h
  obtain ⟨⟨hL, hU⟩, hB⟩ := h
  have hne : TrimSpace raw ≠ [] := by
    intro hnil
    have := contains_trim_loaded raw
    rw [hnil, hL, contains_nil_left "loaded units".toList 'l' "oaded units".toList rfl] at this
    exact Bool.false_ne_true this
  simp only [listLoop, contains_trim_unit, contains_trim_bullet, contains_trim_loaded,
    hU, hB, hL, if_neg hne, Bool.or_self, Bool.false_eq_true, if_false, if_true]

theorem listLoop_continue (env : Env) (raw : Str) (sl : ServiceList)
    (h : isStopLine raw = false) :
    ∃ sl1, ∀ rest, listLoop env (raw :: rest) sl = listLoop env rest sl1 := by
  simp only [listLoop, contains_trim_unit, contains_trim_bullet, contains_trim_loaded]
  split_ifs with h1 h2 h3 h4
  · exact ⟨sl, fun _ => rfl⟩
  · exact ⟨sl, fun _ => rfl⟩
  · exfalso
    simp only [Bool.or_eq_true, not_or, Bool.not_eq_true] at h2
    have hstop : isStopLine raw = true := by
      simp only [isStopLine, h2.1, h2.2, h3]
      rfl
    rw [hstop] at h
    exact Bool.noConfusion h
  · exact ⟨sl, fun _ => rfl⟩
  · exact ⟨_, fun _ => rfl⟩

theorem listLoop_takeWhile (env : Env) (ls : List Str) (sl : ServiceList) :
    listLoop env ls sl = listLoop env (ls.takeWhile (fun l => !isStopLine l)) sl := by
  induction ls generalizing sl with
  | nil => rfl
  | cons raw rest ih =>
    cases hs : isStopLine raw with
    | true =>
      rw [listLoop_stop env raw rest sl hs, List.takeWhile_cons_of_neg (by simp [hs])]
      rfl
    | false =>
      obtain ⟨sl1, h1⟩ := listLoop_continue env raw sl hs
      rw [List.takeWhile_cons_of_pos (by simp [hs]), h1, h1, ih]

theorem listLoop_split_join (env : Env) (ls : List Str) (sl : ServiceList)
    (h : ∀ l ∈ ls, '\n' ∉ l) :
    listLoop env (Split (Join ls "\n".toList) "\n".toList) sl = listLoop env ls sl := by
  cases ls with
  | nil =>
    have : Split (Join [] "\n".toList) "\n".toList = [[]] := by decide
    rw [this]
    exact listLoop_skip env [] [] sl (Or.inr (Or.inl (by simp)))
  | cons l ls =>
    have e : "\n".toList = ['\n'] := rfl
    rw [e, split_join '\n' l ls h]

theorem listLoop_body (env : Env) (body tail : List Str) (sl : ServiceList)
    (h : ∀ l ∈ body, isValidRow l = true ∨ Contains l "UNIT".toList = true ∨
      (∀ c ∈ l, isSpace c = true) ∨
      ((Fields l).length < 4 ∧ Contains l "loaded units".toList = false)) :
    listLoop env (body ++ tail) sl =
      listLoop env tail (((body.filter isValidRow).map (rowEntry env)).foldl AddService sl) := by
  induction body generalizing sl with
  | nil => rfl
  | cons l ls ih =>
    have ih2 := fun sl1 => ih sl1 (fun x hx => h x (List.mem_cons_of_mem _ hx))
    cases hv : isValidRow l with
    | true =>
      rw [List.cons_append, listLoop_valid env l _ sl hv, ih2, List.filter_cons_of_pos hv]
      rfl
    | false =>
      have hl := h l (List.mem_cons_self _ _)
      rw [hv] at hl
      simp only [Bool.false_eq_true, false_or] at hl
      rw [List.cons_append, listLoop_skip env l _ sl hl, ih2,
        List.filter_cons_of_neg (by simp [hv])]

theorem listLoop_summary (env : Env) (summary : Str) (sl : ServiceList)
    (h : Contains summary "loaded units".toList = true) :
    listLoop env [summary] sl = sl := by
  simp only [listLoop, contains_trim_loaded, h, if_true]
  split_ifs <;> rfl

/-- C7, refuted as stated: a header, the 3-field row `0 loaded units`, one
valid row and the trailing summary line; the loop stops at the 3-field row and
the list stays empty although there is one valid row. -/
theorem listServices_rows_counterexample :
    Contains "UNIT LOAD ACTIVE SUB DESCRIPTION".toList "UNIT".toList = true ∧
    (Fields "0 loaded units".toList).length = 3 ∧
    isValidRow "ssh.service loaded active running OpenSSH".toList = true ∧
    Contains "1 loaded units listed.".toList "loaded units".toList = true ∧
    ListServices sampleEnv (.ok (Join
      ["UNIT LOAD ACTIVE SUB DESCRIPTION".toList, "0 loaded units".toList,
        "ssh.service loaded active running OpenSSH".toList,
        "1 loaded units listed.".toList] "\n".toList))
      = Outcome.ok (NewServiceList sampleEnv) ∧
    (NewServiceList sampleEnv).Total = 0 := by
  decide

/-- C7, amended: for a listing text whose lines are a body followed by a
summary line containing `loaded units`, where every body line is a header line
containing `UNIT`, a blank line, a row with fewer than 4 fields that lacks the
phrase `loaded units`, or a valid row (at least 4 fields, none of `UNIT`, `●`,
`loaded units`), `ListServices` succeeds and its entries are exactly the valid
rows in order, each with name, active state and sub state taken from fields 0,
2, 3 and the status from `parseStatus`; Total is the number of valid rows. -/
theorem listServices_rows (env : Env) (body : List Str) (summary : Str)
    (hnl : ∀ l ∈ body ++ [summary], '\n' ∉ l)
    (hbody : ∀ l ∈ body, isValidRow l = true ∨ Contains l "UNIT".toList = true ∨
      (∀ c ∈ l, isSpace c = true) ∨
      ((Fields l).length < 4 ∧ Contains l "loaded units".toList = false))
    (hsum : Contains summary "loaded units".toList = true) :
    ∃ sl, ListServices env (.ok (Join (body ++ [summary]) "\n".toList)) = Outcome.ok sl ∧
      sl.Services = (body.filter isValidRow).map (rowEntry env) ∧
      sl.Total = ((body.filter isValidRow).length : Int) := by
  refine ⟨_, rfl, ?_, ?_⟩
  · rw [listLoop_split_join env _ _ hnl, listLoop_body env body [summary] _ hbody,
      listLoop_summary env summary _ hsum, services_foldl]
    rfl
  · rw [listLoop_split_join env _ _ hnl, listLoop_body env body [summary] _ hbody,
      listLoop_summary env summary _ hsum]
    have hc := consistent_foldl (NewServiceList env)
      ((body.filter isValidRow).map (rowEntry env)) (consistent_new env)
    rw [hc.1, services_foldl]
    simp [NewServiceList]

set_option maxRecDepth 100000 in
/-- C7 (amended) at a listing with a header, two valid rows, one 3-field row,
a blank line and the summary line: two entries, Total = 2. -/
theorem listServices_rows_witness :
    ∃ sl, ListServices sampleEnv (.ok
        ("  UNIT LOAD ACTIVE SUB DESCRIPTION\n" ++
         "  ssh.service loaded active running OpenSSH server\n" ++
         "  broken row here\n" ++
         "  cron.service loaded inactive dead Cron\n" ++
         "\n" ++
         "2 loaded units listed.").toList) = Outcome.ok sl ∧
      sl.Services = [rowEntry sampleEnv "  ssh.service loaded active running OpenSSH server".toList,
        rowEntry sampleEnv "  cron.service loaded inactive dead Cron".toList] ∧
      sl.Total = 2 :=
  listServices_rows sampleEnv
    ["  UNIT LOAD ACTIVE SUB DESCRIPTION".toList,
      "  ssh.service loaded active running OpenSSH server".toList,
      "  broken row here".toList,
      "  cron.service loaded inactive dead Cron".toList,
      "".toList]
    "2 loaded units listed.".toList (by decide) (by decide) (by decide)

/-- C8, refuted as stated: the first line with the phrase `loaded units` also
carries the header marker `UNIT`, so it is passed over as a header and the row
after it still becomes an entry, whereas parsing only the lines before it (there
are none) gives the empty list. -/
theorem listServices_stop_counterexample :
    (Split "UNIT loaded units\nssh.service loaded active running OpenSSH".toList
        "\n".toList).takeWhile (fun l => !Contains l "loaded units".toList) = [] ∧
    ListServices sampleEnv (.ok (Join [] "\n".toList)) = Outcome.ok (NewServiceList sampleEnv) ∧
    ListServices sampleEnv
        (.ok "UNIT loaded units\nssh.service loaded active running OpenSSH".toList)
      = Outcome.ok (AddService (NewServiceList sampleEnv)
          (rowEntry sampleEnv "ssh.service loaded active running OpenSSH".toList)) ∧
    (AddService (NewServiceList sampleEnv)
      (rowEntry sampleEnv "ssh.service loaded active running OpenSSH".toList)).Total = 1 := by
  decide

/-- C8, amended: no line after the first line that contains the phrase
`loaded units` and neither `UNIT` nor `●` contributes an entry: the result for a
listing text equals the result for the text made of the lines before that
line. -/
theorem listServices_stop (env : Env) (text : Str) :
    ListServices env (.ok text) =
      ListServices env (.ok (Join ((Split text "\n".toList).takeWhile
        (fun l => !isStopLine l)) "\n".toList)) := by
  unfold ListServices
  simp only
  congr 1
  rw [listLoop_takeWhile, listLoop_split_join]
  intro l hl
  have hmem : l ∈ Split text "\n".toList := (List.takeWhile_sublist _).subset hl
  exact split_pieces '\n' text l hmem

/-! ### The status query -/

theorem dropWhile_append_stop (p : Char → Bool) (y : Char) (ys : Str) (hy : p y = false) :
    ∀ xs : Str, (xs ++ y :: ys).dropWhile p = xs.dropWhile p ++ y :: ys := by
  intro xs
  induction xs with
  | nil => simp [List.dropWhile_cons, hy]
  | cons x xs ih =>
    by_cases hx : p x = true
    · simp only [List.cons_append, List.dropWhile_cons_of_pos hx, ih]
    · simp only [List.cons_append, List.dropWhile_cons_of_neg hx]

theorem trimRight_key_value (K V : Str) :
    trimRight (K ++ '=' :: V) = K ++ '=' :: trimRight V := by
  unfold trimRight
  rw [List.reverse_append, List.reverse_cons, List.append_assoc, List.singleton_append,
    dropWhile_append_stop isSpace '=' K.reverse (by decide)]
  simp

theorem trimSpace_key_value (k0 : Char) (K V : Str) (hk : isSpace k0 = false) :
    TrimSpace (k0 :: K ++ '=' :: V) = k0 :: K ++ '=' :: trimRight V := by
  unfold TrimSpace trimLeft
  rw [List.cons_append, List.dropWhile_cons_of_neg (by simp [hk]), ← List.cons_append,
    trimRight_key_value]

theorem splitN_key_value (K V : Str) (hK : '=' ∉ K) :
    SplitN (K ++ '=' :: V) "=".toList 2 = [K, V] := by
  have e : "=".toList = ['='] := rfl
  have h2 : SplitN (K ++ '=' :: V) ['='] 2 = genSplit ['='] 1 (K ++ ['='] ++ V) := by
    simp [SplitN]
  rw [e, h2, genSplit_char_cut '=' 0 K V hK]
  rfl

theorem statusLine_key_value (env : Env) (st : StatusVars) (k0 : Char) (K V : Str)
    (hk : isSpace k0 = false) (hK : '=' ∉ k0 :: K) :
    statusLine env st (k0 :: K ++ '=' :: V) = applyField env (k0 :: K) (trimRight V) st := by
  unfold statusLine
  simp only [trimSpace_key_value k0 K V hk, splitN_key_value (k0 :: K) (trimRight V) hK]
  simp

theorem not_mem_trimSpace (c : Char) (s : Str) (h : c ∉ s) : c ∉ TrimSpace s := by
  intro hc
  apply h
  unfold TrimSpace trimRight trimLeft at hc
  rw [List.mem_reverse] at hc
  have h1 := (List.dropWhile_sublist isSpace).subset hc
  rw [List.mem_reverse] at h1
  exact (List.dropWhile_sublist isSpace).subset h1

theorem statusLine_no_equals (env : Env) (st : StatusVars) (raw : Str) (h : '=' ∉ raw) :
    statusLine env st raw = Outcome.ok st := by
  unfold statusLine
  have e : "=".toList = ['='] := rfl
  have h1 : SplitN (TrimSpace raw) ['='] 2 = [TrimSpace raw] := by
    have : SplitN (TrimSpace raw) ['='] 2 = genSplit ['='] 1 (TrimSpace raw) := by
      simp [SplitN]
    rw [this]
    exact genSplit_char_last '=' 1 _ (not_mem_trimSpace '=' raw h)
  simp only [e, h1]
  simp

/-- C9, refuted as stated: for the line `ActiveState=a=b ` (the value ends in a
space) the value taken is `a=b`, not all of the text after the first `=`. -/
theorem statusLine_split_counterexample :
    statusLine sampleEnv sampleVars ("ActiveState".toList ++ "=".toList ++ "a=b ".toList)
      = Outcome.ok { sampleVars with
          activeState := "a=b".toList
          serviceInfo := { sampleVars.serviceInfo with ActiveState := "a=b".toList } } ∧
    "a=b".toList ≠ "a=b ".toList := by
  decide

/-- C9, amended: a line `K=V` whose key `K` is a recognized key is split at its
first `=` only, and the value given to the `switch` is `V` without its trailing
white space (the line is trimmed before it is split), so all of `V` when `V`
does not end in white space, even when `V` itself contains `=`; a line
containing no `=` leaves the loop variables unchanged and is no error. -/
theorem statusLine_split (env : Env) (st : StatusVars) :
    (∀ K ∈ recognizedKeys, ∀ V : Str,
      statusLine env st (K ++ "=".toList ++ V) = applyField env K (trimRight V) st) ∧
    (∀ K ∈ recognizedKeys, ∀ V : Str, trimRight V = V →
      statusLine env st (K ++ "=".toList ++ V) = applyField env K V st) ∧
    (∀ raw : Str, '=' ∉ raw → statusLine env st raw = Outcome.ok st) := by
  have main : ∀ K ∈ recognizedKeys, ∀ V : Str,
      statusLine env st (K ++ "=".toList ++ V) = applyField env K (trimRight V) st := by
    intro K hK V
    have hshape : ∃ k0 K1, K = k0 :: K1 ∧ isSpace k0 = false ∧ '=' ∉ k0 :: K1 := by
      simp only [recognizedKeys, List.mem_cons, List.mem_singleton, List.not_mem_nil,
        or_false] at hK
      rcases hK with h | h | h | h | h <;> subst h <;>
        exact ⟨_, _, rfl, by decide, by decide⟩
    obtain ⟨k0, K1, hK0, hk, hne⟩ := hshape
    subst hK0
    have e : (k0 :: K1) ++ "=".toList ++ V = k0 :: K1 ++ '=' :: V := by
      simp [String.toList]
    rw [e]
    exact statusLine_key_value env st k0 K1 V hk hne
  refine ⟨main, ?_, fun raw h => statusLine_no_equals env st raw h⟩
  intro K hK V hV
  rw [main K hK V, hV]

/-- C9 (amended) at `ActiveState=a=b`, at a line whose value ends in white
space, and at a line without `=`. -/
theorem statusLine_split_witness :
    statusLine sampleEnv sampleVars "ActiveState=a=b".toList
      = Outcome.ok { sampleVars with
          activeState := "a=b".toList
          serviceInfo := { sampleVars.serviceInfo with ActiveState := "a=b".toList } } ∧
    statusLine sampleEnv sampleVars "SubState=x=y \t".toList
      = applyField sampleEnv "SubState".toList "x=y".toList sampleVars ∧
    statusLine sampleEnv sampleVars "no assignment here".toList = Outcome.ok sampleVars :=
  ⟨(statusLine_split sampleEnv sampleVars).2.1 "ActiveState".toList (by decide)
      "a=b".toList (by decide),
    (statusLine_split sampleEnv sampleVars).1 "SubState".toList (by decide) "x=y \t".toList,
    (statusLine_split sampleEnv sampleVars).2.2 "no assignment here".toList (by decide)⟩

/-! ### `formatMemory` -/

theorem memLoop_step (n d e : Int) (h : n ≥ 1024) :
    memLoop n d e = memLoop (n / 1024) (wrapInt64 (d * 1024)) (e + 1) := by
  rw [memLoop, dif_pos h, Int.tdiv_eq_ediv (by omega) (by omega)]

theorem memLoop_done (n d e : Int) (h : ¬ n ≥ 1024) : memLoop n d e = (d, e) := by
  rw [memLoop, dif_neg h]

theorem memLoop_exp_ge (k : Nat) : ∀ n d e : Int, n.toNat ≤ k → e ≤ (memLoop n d e).2 := by
  induction k with
  | zero =>
    intro n d e hn
    rw [memLoop_done n d e (by omega)]
  | succ k ih =>
    intro n d e hn
    by_cases h : n ≥ 1024
    · rw [memLoop_step n d e h]
      have := ih (n / 1024) (wrapInt64 (d * 1024)) (e + 1) (by omega)
      omega
    · rw [memLoop_done n d e h]

theorem memLoop_exp_le (k : Nat) :
    ∀ n d e : Int, n < 1024 ^ (k + 1) → (memLoop n d e).2 ≤ e + k := by
  induction k with
  | zero =>
    intro n d e hn
    rw [memLoop_done n d e (by omega)]
    simp
  | succ k ih =>
    intro n d e hn
    by_cases h : n ≥ 1024
    · rw [memLoop_step n d e h]
      have h1 : n / 1024 < 1024 ^ (k + 1) := by
        rw [pow_succ] at hn
        omega
      have := ih (n / 1024) (wrapInt64 (d * 1024)) (e + 1) h1
      push_cast
      omega
    · rw [memLoop_done n d e h]
      push_cast
      omega

/-- From 2^50 bytes on, `formatMemory` aborts: `exp` reaches 4 and `"KMGT"[exp]`
is out of range. -/
theorem formatMemory_abort (env : Env) (bytes : Int) (h : 2 ^ 50 ≤ bytes) :
    formatMemory env bytes = Outcome.abort := by
  unfold formatMemory
  rw [if_neg (by omega), Int.tdiv_eq_ediv (by omega) (by omega)]
  simp only
  rw [memLoop_step _ _ _ (by omega), memLoop_step _ _ _ (by omega),
    memLoop_step _ _ _ (by omega), memLoop_step _ _ _ (by omega)]
  have hge := memLoop_exp_ge (bytes / 1024 / 1024 / 1024 / 1024 / 1024).toNat
    (bytes / 1024 / 1024 / 1024 / 1024 / 1024)
    (wrapInt64 (wrapInt64 (wrapInt64 (wrapInt64 (1024 * 1024) * 1024) * 1024) * 1024))
    (0 + 1 + 1 + 1 + 1) (Nat.le_refl _)
  rw [if_neg (by omega)]

/-- Below 2^50 bytes `formatMemory` returns a text. -/
theorem formatMemory_ok (env : Env) (bytes : Int) (h : bytes < 2 ^ 50) :
    ∃ text, formatMemory env bytes = Outcome.ok text := by
  unfold formatMemory
  by_cases h1 : bytes < 1024
  · exact ⟨_, if_pos h1⟩
  · rw [if_neg h1, Int.tdiv_eq_ediv (by omega) (by omega)]
    simp only
    have hle := memLoop_exp_le 3 (bytes / 1024) 1024 0 (by norm_num; omega)
    have hge := memLoop_exp_ge (bytes / 1024).toNat (bytes / 1024) 1024 0 (Nat.le_refl _)
    rw [if_pos ⟨hge, by push_cast at hle; omega⟩]
    exact ⟨_, rfl⟩

theorem applyField_memory_abort (env : Env) (st : StatusVars) (value : Str) (memBytes : Int)
    (hp : ParseInt64 value = some memBytes) (hf : formatMemory env memBytes = Outcome.abort) :
    applyField env "MemoryCurrent".toList value st = Outcome.abort := by
  unfold applyField
  rw [if_neg (by decide), if_neg (by decide), if_neg (by decide), if_pos rfl, hp]
  simp only [hf]

theorem statusLoop_abort (env : Env) (l1 l2 : Str) (rest : List Str) (st : StatusVars)
    (h1 : ∃ st1, statusLine env st l1 = Outcome.ok st1)
    (h2 : ∀ st1, statusLine env st1 l2 = Outcome.abort) :
    statusLoop env (l1 :: l2 :: rest) st = Outcome.abort := by
  obtain ⟨st1, h1⟩ := h1
  simp only [statusLoop, h1, h2]

theorem parseInt64_pebibyte : ParseInt64 "1125899906842624".toList = some (2 ^ 50) := by
  decide

theorem split_pebibyte_text :
    Split "ActiveState=active\nMemoryCurrent=1125899906842624\n".toList "\n".toList
      = ["ActiveState=active".toList, "MemoryCurrent=1125899906842624".toList, []] := by
  decide

theorem statusLine_pebibyte (env : Env) (st : StatusVars) :
    statusLine env st "MemoryCurrent=1125899906842624".toList = Outcome.abort := by
  have h := statusLine_key_value env st 'M' "emoryCurrent".toList "1125899906842624".toList
    (by decide) (by decide)
  have e : trimRight "1125899906842624".toList = "1125899906842624".toList := by decide
  rw [e] at h
  exact h.trans (applyField_memory_abort env st _ _ parseInt64_pebibyte
    (formatMemory_abort env _ (le_refl _)))

theorem statusLine_active (env : Env) (st : StatusVars) :
    ∃ st1, statusLine env st "ActiveState=active".toList = Outcome.ok st1 := by
  have h : statusLine env st "ActiveState=active".toList
      = applyField env "ActiveState".toList (trimRight "active".toList) st :=
    statusLine_key_value env st 'A' "ctiveState".toList "active".toList (by decide) (by decide)
  rw [h]
  unfold applyField
  rw [if_pos rfl]
  exact ⟨_, rfl⟩

theorem getServiceStatus_of_loop_abort (env : Env) (name output : Str)
    (h : ∀ st, statusLoop env (Split output "\n".toList) st = Outcome.abort) :
    GetServiceStatus env name (fun _ => Except.ok output) = Outcome.abort := by
  unfold GetServiceStatus
  simp only [h]

/-- C10, the code at the failing input: a status text whose `MemoryCurrent`
is 2^50 bytes parses as a signed 64-bit integer, `formatMemory` aborts on it,
and so does the whole of `GetServiceStatus`, whatever the environment and the
service name. -/
theorem getServiceStatus_memory_abort (env : Env) (name : Str) :
    ParseInt64 "1125899906842624".toList = some (2 ^ 50) ∧
    formatMemory env (2 ^ 50) = Outcome.abort ∧
    GetServiceStatus env name
      (fun _ => Except.ok "ActiveState=active\nMemoryCurrent=1125899906842624\n".toList)
      = Outcome.abort := by
  refine ⟨parseInt64_pebibyte, formatMemory_abort env _ (le_refl _), ?_⟩
  apply getServiceStatus_of_loop_abort
  intro st
  rw [split_pebibyte_text]
  exact statusLoop_abort env _ _ _ st (statusLine_active env st) (statusLine_pebibyte env)

/-! ### `filterLogs` -/

theorem filterLoop_eq (env : Env) (pattern : Str) (entries filtered : List LogEntry) :
    filterLoop env pattern entries filtered =
      filtered ++ entries.filter
        (fun entry => Contains (ToLower env.lowerTable entry.Message) pattern) := by
  induction entries generalizing filtered with
  | nil => simp [filterLoop]
  | cons e rest ih =>
    simp only [filterLoop]
    split_ifs with h
    · rw [ih, List.filter_cons]
      simp only [h, if_true, List.append_assoc, List.singleton_append]
    · rw [ih, List.filter_cons]
      simp only [h, Bool.false_eq_true, if_false]

theorem filterLogs_eq_filter (env : Env) (entries : List LogEntry) (pattern : Str) :
    filterLogs env entries pattern = entries.filter (grepMatch env pattern) := by
  unfold filterLogs
  simp only [filterLoop_eq, List.nil_append]
  rfl

/-- C13: `filterLogs` returns, in the original order, exactly the entries
whose lower-cased message contains the lower-cased pattern; the result is never
longer than the input, it is the empty list when nothing matches, and filtering
twice with the same pattern equals filtering once. -/
theorem filterLogs_spec (env : Env) (entries : List LogEntry) (pattern : Str) :
    filterLogs env entries pattern = entries.filter (grepMatch env pattern) ∧
    List.Sublist (filterLogs env entries pattern) entries ∧
    (∀ e, e ∈ filterLogs env entries pattern ↔ e ∈ entries ∧ grepMatch env pattern e = true) ∧
    (filterLogs env entries pattern).length ≤ entries.length ∧
    ((∀ e ∈ entries, grepMatch env pattern e = false) → filterLogs env entries pattern = []) ∧
    filterLogs env (filterLogs env entries pattern) pattern = filterLogs env entries pattern := by
  rw [filterLogs_eq_filter]
  refine ⟨rfl, List.filter_sublist _, fun e => List.mem_filter, List.length_filter_le _ _, ?_, ?_⟩
  · intro h
    rw [List.filter_eq_nil_iff]
    intro e he
    rw [h e he]
    exact Bool.false_ne_true
  · rw [filterLogs_eq_filter, List.filter_filter]
    simp

/-- C13 at two entries and the pattern `ERR`: only the entry whose message
contains `err` in some casing stays, and a pattern that matches nothing gives
the empty list. -/
theorem filterLogs_spec_witness :
    filterLogs sampleEnv
      [NewLogEntry sampleEnv "svc".toList "disk Error 5".toList,
        NewLogEntry sampleEnv "svc".toList "all fine".toList] "ERR".toList
      = [NewLogEntry sampleEnv "svc".toList "disk Error 5".toList] ∧
    filterLogs sampleEnv
      [NewLogEntry sampleEnv "svc".toList "disk Error 5".toList,
        NewLogEntry sampleEnv "svc".toList "all fine".toList] "zzz".toList = [] :=
  ⟨by decide,
    (filterLogs_spec sampleEnv
      [NewLogEntry sampleEnv "svc".toList "disk Error 5".toList,
        NewLogEntry sampleEnv "svc".toList "all fine".toList] "zzz".toList).2.2.2.2.1
      (by decide)⟩

/-! ### The level prefixes -/

theorem levelPrefixTest_iff (m l : Str) :
    levelPrefixTest m l = true ↔ ∃ p ∈ levelPrefixes l, p <+: m := by
  simp only [levelPrefixTest, HasPrefix, Bool.or_eq_true, List.isPrefixOf_iff_prefix,
    levelPrefixes, List.mem_cons, List.mem_singleton, List.not_mem_nil, or_false,
    exists_eq_or_imp, exists_eq_left]

theorem levelPrefixes_apart :
    ∀ l1 ∈ levels, ∀ l2 ∈ levels, ∀ p1 ∈ levelPrefixes l1, ∀ p2 ∈ levelPrefixes l2,
      (p1.isPrefixOf p2 = true ∨ p2.isPrefixOf p1 = true) → l1 = l2 := by
  decide

theorem levelPrefixTest_unique (m : Str) :
    ∀ l1 ∈ levels, ∀ l2 ∈ levels,
      levelPrefixTest m l1 = true → levelPrefixTest m l2 = true → l1 = l2 := by
  intro l1 h1 l2 h2 t1 t2
  obtain ⟨p1, hp1, hm1⟩ := (levelPrefixTest_iff m l1).1 t1
  obtain ⟨p2, hp2, hm2⟩ := (levelPrefixTest_iff m l2).1 t2
  apply levelPrefixes_apart l1 h1 l2 h2 p1 hp1 p2 hp2
  rcases Nat.le_total p1.length p2.length with hle | hle
  · exact Or.inl (List.isPrefixOf_iff_prefix.2 (List.prefix_of_prefix_length_le hm1 hm2 hle))
  · exact Or.inr (List.isPrefixOf_iff_prefix.2 (List.prefix_of_prefix_length_le hm2 hm1 hle))

theorem scanLevels_of_unique (m : Str) (e : LogEntry) :
    ∀ ls : List Str,
      (∀ l1 ∈ ls, ∀ l2 ∈ ls, levelPrefixTest m l1 = true → levelPrefixTest m l2 = true →
        l1 = l2) →
      ∀ l ∈ ls, levelPrefixTest m l = true → scanLevels m ls e = { e with Level := l } := by
  intro ls
  induction ls with
  | nil => intro _ l hl; simp at hl
  | cons x xs ih =>
    intro huniq l hl ht
    simp only [scanLevels]
    split_ifs with hx
    · rw [huniq x (List.mem_cons_self _ _) l hl hx ht]
    · have hlx : l ∈ xs := by
        rcases List.mem_cons.1 hl with h | h
        · rw [h] at ht
          exact absurd ht hx
        · exact h
      exact ih (fun a ha b hb => huniq a (List.mem_cons_of_mem _ ha) b (List.mem_cons_of_mem _ hb))
        l hlx ht

/-- C18: for every message at most one level of the list passes the prefix
test, so the loop over the levels gives the same entry for every ordering of
the list, and so does the prefix strategy of `parseJournalLine`. -/
theorem levelPrefix_order_free (m : Str) :
    (∀ l1 ∈ levels, ∀ l2 ∈ levels,
      levelPrefixTest m l1 = true → levelPrefixTest m l2 = true → l1 = l2) ∧
    (∀ (ls : List Str) (e : LogEntry), ls.Perm levels →
      scanLevels m ls e = scanLevels m levels e) ∧
    (∀ (env : Env) (ls : List Str) (e : LogEntry), ls.Perm levels →
      scanLevels (ToUpper env.upperTable e.Message) ls e = extractLevelPrefix env e) := by
  have huniq := levelPrefixTest_unique m
  have hperm : ∀ (m : Str) (ls : List Str) (e : LogEntry), ls.Perm levels →
      scanLevels m ls e = scanLevels m levels e := by
    intro m ls e hp
    have huniq := levelPrefixTest_unique m
    by_cases hex : ∃ l ∈ levels, levelPrefixTest m l = true
    · obtain ⟨l, hl, ht⟩ := hex
      rw [scanLevels_of_unique m e levels huniq l hl ht]
      apply scanLevels_of_unique m e ls _ l (hp.mem_iff.2 hl) ht
      intro a ha b hb
      exact huniq a (hp.mem_iff.1 ha) b (hp.mem_iff.1 hb)
    · push_neg at hex
      have hf : ∀ l ∈ levels, levelPrefixTest m l = false := fun l hl => by
        simpa using hex l hl
      rw [scanLevels_none m levels e hf]
      exact scanLevels_none m ls e (fun l hl => hf l (hp.mem_iff.1 hl))
  exact ⟨huniq, hperm m, fun env ls e hp => hperm _ ls e hp⟩

/-- C18 at the message `WARNING: LOW DISK`: the reversed level list gives the
same level as the list of the source. -/
theorem levelPrefix_order_free_witness :
    (scanLevels "WARNING: LOW DISK".toList levels.reverse
        (NewLogEntry sampleEnv "svc".toList "warning: low disk".toList)).Level
      = "WARNING".toList ∧
    (scanLevels "WARNING: LOW DISK".toList levels
        (NewLogEntry sampleEnv "svc".toList "warning: low disk".toList)).Level
      = "WARNING".toList :=
  ⟨by
      rw [(levelPrefix_order_free "WARNING: LOW DISK".toList).2.1 levels.reverse
        (NewLogEntry sampleEnv "svc".toList "warning: low disk".toList)
        (List.reverse_perm levels)]
      decide,
    by decide⟩

/-! ### `formatMemory`: the scaled results -/

theorem wrapInt64_id (x : Int) (h1 : -(2 ^ 63) ≤ x) (h2 : x < 2 ^ 63) : wrapInt64 x = x := by
  unfold wrapInt64
  norm_num at h1 h2 ⊢
  omega

theorem memLoop_exact (j : Nat) :
    ∀ n d e : Int, 0 < d → d * 1024 ^ j < 2 ^ 63 → (j = 0 ∨ 1024 ^ j ≤ n) →
      n < 1024 ^ (j + 1) → memLoop n d e = (d * 1024 ^ j, e + j) := by
  induction j with
  | zero =>
    intro n d e _ _ _ hn
    rw [memLoop_done n d e (by omega)]
    simp
  | succ j ih =>
    intro n d e hd hdj hlo hhi
    have hlo2 : (1024 : Int) ^ (j + 1) ≤ n := by
      rcases hlo with h | h
      · omega
      · exact h
    have hpos : (0 : Int) < 1024 ^ j := by positivity
    have hn : n ≥ 1024 := by
      have : (1024 : Int) ^ (j + 1) = 1024 ^ j * 1024 := pow_succ _ _
      nlinarith
    rw [memLoop_step n d e hn]
    have hw : wrapInt64 (d * 1024) = d * 1024 := by
      apply wrapInt64_id
      · have : (0 : Int) ≤ d * 1024 := by positivity
        have h63 : (0 : Int) < 2 ^ 63 := by positivity
        omega
      · have : (1024 : Int) ^ (j + 1) = 1024 ^ j * 1024 := pow_succ _ _
        rw [this] at hdj
        nlinarith
    rw [hw]
    have e1 : (1024 : Int) ^ (j + 1) = 1024 ^ j * 1024 := pow_succ _ _
    have e2 : (1024 : Int) ^ (j + 1 + 1) = 1024 ^ (j + 1) * 1024 := pow_succ _ _
    rw [ih (n / 1024) (d * 1024) (e + 1) (by positivity)
      (by rw [e1] at hdj; nlinarith)
      (Or.inr (by rw [e1] at hlo2; omega))
      (by rw [e2] at hhi; omega)]
    rw [e1]
    push_cast
    exact Prod.ext (by ring) (by ring)

/-- C12: `formatMemory` scales by powers of 1024: a value from 0 up to 1023 is
printed as its decimal followed by ` B`, and a value from `1024^k` up to
`1024^(k+1) - 1` with `k` from 1 to 4 is printed as the quotient by `1024^k`
with one decimal, a space, the `k`-th letter of `KMGT` and `B`. -/
theorem formatMemory_scaling (env : Env) (n : Int) :
    (0 ≤ n → n < 1024 → formatMemory env n = Outcome.ok (fmtInt n ++ " B".toList)) ∧
    (∀ k : Nat, 1 ≤ k → k ≤ 4 → 1024 ^ k ≤ n → n < 1024 ^ (k + 1) →
      formatMemory env n = Outcome.ok (env.fmtFloat1 n (1024 ^ k) ++ " ".toList ++
        ["KMGT".toList.getD (k - 1) 'K'] ++ "B".toList)) := by
  constructor
  · intro _ h
    unfold formatMemory
    rw [if_pos h]
  · intro k hk1 hk4 hlo hhi
    obtain ⟨j, rfl⟩ : ∃ j, k = j + 1 := ⟨k - 1, by omega⟩
    have e1 : (1024 : Int) ^ (j + 1) = 1024 ^ j * 1024 := pow_succ _ _
    have e2 : (1024 : Int) ^ (j + 1 + 1) = 1024 ^ (j + 1) * 1024 := pow_succ _ _
    have hpos : (0 : Int) < 1024 ^ j := by positivity
    have hn : n ≥ 1024 := by nlinarith
    have hj : (1024 : Int) ^ j ≤ 1024 ^ 3 := pow_le_pow_right₀ (by norm_num) (by omega)
    have hloop := memLoop_exact j (n / 1024) 1024 0 (by norm_num)
      (by norm_num at hj ⊢; omega)
      (Or.inr (by rw [e1] at hlo; omega))
      (by rw [e2, e1] at hhi; rw [e1]; omega)
    unfold formatMemory
    rw [if_neg (by omega), Int.tdiv_eq_ediv (by omega) (by omega)]
    simp only [hloop]
    rw [if_pos (by constructor <;> omega)]
    have e3 : (1024 : Int) * 1024 ^ j = 1024 ^ (j + 1) := by rw [e1]; ring
    have e4 : ((0 : Int) + (j : Int)).toNat = j + 1 - 1 := by omega
    rw [e3, e4]

/-- C12 at the three values of the specification, with the one-decimal printer
of `sampleEnv`: `512 B`, `2.0 KB`, `1.0 MB`. -/
theorem formatMemory_scaling_witness :
    formatMemory sampleEnv 512 = Outcome.ok "512 B".toList ∧
    formatMemory sampleEnv 2048 = Outcome.ok "2.0 KB".toList ∧
    formatMemory sampleEnv 1048576 = Outcome.ok "1.0 MB".toList :=
  ⟨((formatMemory_scaling sampleEnv 512).1 (by decide) (by decide)).trans (by decide),
    ((formatMemory_scaling sampleEnv 2048).2 1 (by decide) (by decide) (by decide)
      (by decide)).trans (by decide),
    ((formatMemory_scaling sampleEnv 1048576).2 2 (by decide) (by decide) (by decide)
      (by decide)).trans (by decide)⟩

/-! ### The listing as a function of its rows -/

theorem isStopLine_of_valid (l : Str) (h : isValidRow l = true) : isStopLine l = false := by
  simp only [isValidRow, Bool.and_eq_true, Bool.not_eq_true'] at h
  simp only [isStopLine, h.2, Bool.false_and]

theorem listLoop_pass (env : Env) (raw : Str) (rest : List Str) (sl : ServiceList)
    (hs : isStopLine raw = false) (hv : isValidRow raw = false) :
    listLoop env (raw :: rest) sl = listLoop env rest sl := by
  simp only [listLoop, contains_trim_unit, contains_trim_bullet, contains_trim_loaded,
    fields_trimSpace]
  split_ifs with h1 h2 h3 h4
  · rfl
  · rfl
  · exfalso
    simp only [Bool.or_eq_true, not_or, Bool.not_eq_true] at h2
    have : isStopLine raw = true := by
      simp only [isStopLine, h2.1, h2.2, h3]
      rfl
    rw [this] at hs
    exact Bool.noConfusion hs
  · rfl
  · exfalso
    simp only [Bool.or_eq_true, not_or, Bool.not_eq_true] at h2
    have h3f : Contains raw "loaded units".toList = false := by simpa using h3
    have : isValidRow raw = true := by
      simp only [isValidRow, h2.1, h2.2, h3f, Nat.not_lt.1 h4, decide_True]
      rfl
    rw [this] at hv
    exact Bool.noConfusion hv

theorem listLoop_eq_foldl (env : Env) (ls : List Str) (sl : ServiceList) :
    listLoop env ls sl = ((listedRows ls).map (rowEntry env)).foldl AddService sl := by
  induction ls generalizing sl with
  | nil => rfl
  | cons raw rest ih =>
    cases hs : isStopLine raw with
    | true =>
      rw [listLoop_stop env raw rest sl hs]
      simp [listedRows, hs]
    | false =>
      cases hv : isValidRow raw with
      | true =>
        rw [listLoop_valid env raw rest sl hv, ih]
        simp [listedRows, hs, hv]
      | false =>
        rw [listLoop_pass env raw rest sl hs hv, ih]
        simp [listedRows, hs, hv]

theorem listLoop_split (env : Env) (text : Str) (sl : ServiceList) :
    listLoop env (Split text "\n".toList) sl
      = ((listedRows (Split text "\n".toList)).map (rowEntry env)).foldl AddService sl :=
  listLoop_eq_foldl env _ sl

/-- The result of `ListServices` on an output text: the entries of the listed
rows, added one by one to the new list. -/
theorem listServices_eq (env : Env) (text : Str) :
    ListServices env (.ok text) = Outcome.ok
      (((listedRows (Split text "\n".toList)).map (rowEntry env)).foldl AddService
        (NewServiceList env)) := by
  unfold ListServices
  simp only [listLoop_split]

theorem listServices_consistent (env : Env) (cmd : CmdResult) (sl : ServiceList)
    (h : ListServices env cmd = Outcome.ok sl) : Consistent sl := by
  cases cmd with
  | error err => simp [ListServices] at h
  | ok text =>
    rw [listServices_eq] at h
    injection h with h
    rw [← h]
    exact consistent_foldl _ _ (consistent_new env)

theorem listedRows_join (ls : List Str) (h : ∀ l ∈ ls, '\n' ∉ l) :
    listedRows (Split (Join ls "\n".toList) "\n".toList) = listedRows ls := by
  cases ls with
  | nil => decide
  | cons l ls =>
    have e : "\n".toList = ['\n'] := rfl
    rw [e, split_join '\n' l ls h]

theorem listedRows_append (pre rest : List Str) (h : ∀ x ∈ pre, isStopLine x = false) :
    listedRows (pre ++ rest) = pre.filter isValidRow ++ listedRows rest := by
  induction pre with
  | nil => simp
  | cons x xs ih =>
    have hx := h x (List.mem_cons_self _ _)
    have ih2 := ih (fun y hy => h y (List.mem_cons_of_mem _ hy))
    unfold listedRows at ih2 ⊢
    rw [List.cons_append, List.takeWhile_cons_of_pos (by rw [hx]; rfl)]
    cases hv : isValidRow x with
    | true =>
      rw [List.filter_cons_of_pos hv, List.filter_cons_of_pos hv, ih2]
      rfl
    | false =>
      rw [List.filter_cons_of_neg (by rw [hv]; exact Bool.false_ne_true),
        List.filter_cons_of_neg (by rw [hv]; exact Bool.false_ne_true), ih2]

theorem listedRows_cons_valid (l : Str) (rest : List Str) (h : isValidRow l = true) :
    listedRows (l :: rest) = l :: listedRows rest := by
  unfold listedRows
  rw [List.takeWhile_cons_of_pos (by rw [isStopLine_of_valid l h]; rfl),
    List.filter_cons_of_pos h]

theorem total_foldl (env : Env) (xs : List ServiceInfo) :
    (xs.foldl AddService (NewServiceList env)).Total = (xs.length : Int) ∧
    (xs.foldl AddService (NewServiceList env)).Services = xs := by
  have hc := consistent_foldl (NewServiceList env) xs (consistent_new env)
  have hs : (xs.foldl AddService (NewServiceList env)).Services = xs := by
    rw [services_foldl]
    rfl
  exact ⟨by rw [hc.1, hs], hs⟩

/-- C20: every line before the first stop line that has at least 4 fields and
none of `UNIT`, `●`, `loaded units` becomes an entry, whatever its fields are:
with the line the listing has the entry of that line in place and Total is one
more than without it. -/
theorem listServices_accepts (env : Env) (pre post : List Str) (l : Str)
    (hnl : ∀ x ∈ pre ++ l :: post, '\n' ∉ x)
    (hpre : ∀ x ∈ pre, isStopLine x = false) (hl : isValidRow l = true) :
    ∃ sl sl0,
      ListServices env (.ok (Join (pre ++ l :: post) "\n".toList)) = Outcome.ok sl ∧
      ListServices env (.ok (Join (pre ++ post) "\n".toList)) = Outcome.ok sl0 ∧
      sl.Services = (pre.filter isValidRow).map (rowEntry env) ++
        rowEntry env l :: (listedRows post).map (rowEntry env) ∧
      sl0.Services = (pre.filter isValidRow).map (rowEntry env) ++
        (listedRows post).map (rowEntry env) ∧
      sl.Total = sl0.Total + 1 ∧
      sl0.Total = (((pre.filter isValidRow).length + (listedRows post).length : Nat) : Int) := by
  have hnl0 : ∀ x ∈ pre ++ post, '\n' ∉ x := by
    intro x hx
    apply hnl x
    rcases List.mem_append.1 hx with h | h
    · exact List.mem_append_left _ h
    · exact List.mem_append_right _ (List.mem_cons_of_mem _ h)
  refine ⟨_, _, listServices_eq env _, listServices_eq env _, ?_, ?_, ?_, ?_⟩
  · rw [(total_foldl env _).2, listedRows_join _ hnl, listedRows_append pre _ hpre,
      listedRows_cons_valid l post hl]
    simp
  · rw [(total_foldl env _).2, listedRows_join _ hnl0, listedRows_append pre _ hpre]
    simp
  · rw [(total_foldl env _).1, (total_foldl env _).1, listedRows_join _ hnl,
      listedRows_join _ hnl0, listedRows_append pre _ hpre, listedRows_append pre _ hpre,
      listedRows_cons_valid l post hl]
    simp only [List.length_map, List.length_append, List.length_cons]
    push_cast
    ring
  · rw [(total_foldl env _).1, listedRows_join _ hnl0, listedRows_append pre _ hpre]
    simp only [List.length_map, List.length_append]

set_option maxRecDepth 100000 in
/-- C20 at the legend line of `systemctl list-units` placed before the summary
line: it becomes the entry named `LOAD` with active state `Reflects`, sub state
`whether` and status Unknown, and Total is 2 instead of 1. -/
theorem listServices_accepts_witness :
    ∃ sl, ListServices sampleEnv (.ok (Join
        (["UNIT LOAD ACTIVE SUB DESCRIPTION".toList,
          "ssh.service loaded active running OpenSSH".toList, "".toList] ++
          "LOAD   = Reflects whether the unit definition was properly loaded.".toList ::
          ["1 loaded units listed.".toList]) "\n".toList)) = Outcome.ok sl ∧
      sl.Services = [rowEntry sampleEnv "ssh.service loaded active running OpenSSH".toList,
        { Name := "LOAD".toList, Status := StatusUnknown, ActiveState := "Reflects".toList,
          SubState := "whether".toList, Uptime := 0, PID := 0, MemoryUsage := [],
          CheckedAt := 0 }] ∧
      sl.Total = 2 := by
  obtain ⟨sl, sl0, h1, _, h3, _, h5, h6⟩ := listServices_accepts sampleEnv
    ["UNIT LOAD ACTIVE SUB DESCRIPTION".toList,
      "ssh.service loaded active running OpenSSH".toList, "".toList]
    ["1 loaded units listed.".toList]
    "LOAD   = Reflects whether the unit definition was properly loaded.".toList
    (by decide) (by decide) (by decide)
  refine ⟨sl, h1, h3.trans (by decide), ?_⟩
  rw [h5, h6]
  decide

/-! ### Rows with the bullet glyph -/

theorem bullet_not_listed (l : Str) (h : Contains l "●".toList = true) :
    isStopLine l = false ∧ isValidRow l = false := by
  constructor
  · simp only [isStopLine, h, Bool.not_true, Bool.and_false]
  · simp only [isValidRow, h, Bool.not_true, Bool.and_false, Bool.false_and]

theorem listedRows_filter_bullet (ls : List Str) :
    listedRows (ls.filter (fun l => !Contains l "●".toList)) = listedRows ls := by
  induction ls with
  | nil => rfl
  | cons l rest ih =>
    cases hb : Contains l "●".toList with
    | true =>
      obtain ⟨hs, hv⟩ := bullet_not_listed l hb
      rw [List.filter_cons_of_neg (by rw [hb]; exact Bool.false_ne_true), ih]
      unfold listedRows
      rw [List.takeWhile_cons_of_pos (by rw [hs]; rfl),
        List.filter_cons_of_neg (by rw [hv]; exact Bool.false_ne_true)]
    | false =>
      rw [List.filter_cons_of_pos (by rw [hb]; rfl)]
      unfold listedRows at ih ⊢
      cases hs : isStopLine l with
      | true =>
        rw [List.takeWhile_cons_of_neg (by rw [hs]; exact Bool.false_ne_true),
          List.takeWhile_cons_of_neg (by rw [hs]; exact Bool.false_ne_true)]
      | false =>
        rw [List.takeWhile_cons_of_pos (by rw [hs]; rfl),
          List.takeWhile_cons_of_pos (by rw [hs]; rfl), List.filter_cons, List.filter_cons, ih]

theorem parseStatus_failed (a b : Str) (h : parseStatus a b = StatusFailed) :
    a = "failed".toList := by
  unfold parseStatus at h
  split_ifs at h with h1 h2 h3
  · exact absurd h (by decide)
  · exact h2
  · exact absurd h (by decide)
  · exact absurd h (by decide)

/-- C19: a line with the bullet glyph never becomes an entry, so the result for
a listing text is the result for the text without these lines; and when no line
without the glyph has `failed` as its active state (every failed row carries
the glyph), the list has Failed = 0 and `HasFailures` is false. -/
theorem listServices_bullet (env : Env) (text : Str) :
    ListServices env (.ok text) =
      ListServices env (.ok (Join ((Split text "\n".toList).filter
        (fun l => !Contains l "●".toList)) "\n".toList)) ∧
    ((∀ l ∈ Split text "\n".toList, Contains l "●".toList = false →
        (Fields l).getD 2 [] ≠ "failed".toList) →
      ∃ sl, ListServices env (.ok text) = Outcome.ok sl ∧ sl.Failed = 0 ∧
        HasFailures sl = false) := by
  constructor
  · rw [listServices_eq, listServices_eq, listedRows_join, listedRows_filter_bullet]
    intro l hl
    exact split_pieces '\n' text l ((List.filter_sublist _).subset hl)
  · intro h
    refine ⟨_, listServices_eq env text, ?_⟩
    have hc := consistent_foldl (NewServiceList env)
      ((listedRows (Split text "\n".toList)).map (rowEntry env)) (consistent_new env)
    have hF : (((listedRows (Split text "\n".toList)).map (rowEntry env)).foldl AddService
        (NewServiceList env)).Failed = 0 := by
      rw [hc.2.2.1, (total_foldl env _).2]
      have : ((listedRows (Split text "\n".toList)).map (rowEntry env)).filter
          (fun x => decide (x.Status = StatusFailed)) = [] := by
        rw [List.filter_eq_nil_iff]
        intro x hx
        obtain ⟨l, hl, rfl⟩ := List.mem_map.1 hx
        unfold listedRows at hl
        obtain ⟨hl1, hv⟩ := List.mem_filter.1 hl
        have hmem : l ∈ Split text "\n".toList := (List.takeWhile_sublist _).subset hl1
        have hnb : Contains l "●".toList = false := by
          cases hb : Contains l "●".toList with
          | false => rfl
          | true =>
            rw [(bullet_not_listed l hb).2] at hv
            exact Bool.noConfusion hv
        intro hst
        rw [decide_eq_true_eq] at hst
        exact h l hmem hnb (parseStatus_failed _ _ hst)
      rw [this]
      rfl
    exact ⟨hF, by unfold HasFailures; rw [hF]; rfl⟩

set_option maxRecDepth 100000 in
/-- C19 at a listing whose only failed row carries the glyph: the row is lost,
Failed is 0 and `HasFailures` is false. -/
theorem listServices_bullet_witness :
    ∃ sl, ListServices sampleEnv (.ok
        ("UNIT LOAD ACTIVE SUB DESCRIPTION\n" ++
         "  ssh.service loaded active running OpenSSH\n" ++
         "● bad.service loaded failed failed Bad\n" ++
         "2 loaded units listed.").toList) = Outcome.ok sl ∧
      sl.Failed = 0 ∧ HasFailures sl = false :=
  (listServices_bullet sampleEnv
    ("UNIT LOAD ACTIVE SUB DESCRIPTION\n" ++
     "  ssh.service loaded active running OpenSSH\n" ++
     "● bad.service loaded failed failed Bad\n" ++
     "2 loaded units listed.").toList).2 (by decide)

/-! ### The list command -/

theorem handleListFilter_counters (f : Str) (sl sl1 : ServiceList)
    (h : handleListFilter f sl = some sl1) :
    sl1.Total = sl.Total ∧ sl1.Running = sl.Running ∧ sl1.Failed = sl.Failed ∧
      sl1.Stopped = sl.Stopped ∧ sl1.Timestamp = sl.Timestamp := by
  unfold handleListFilter at h
  split_ifs at h with h0 h1 h2 h3
  all_goals
    simp only [Option.some.injEq] at h
    rw [← h]
    exact ⟨rfl, rfl, rfl, rfl, rfl⟩

theorem handleListFilter_services (f : Str) (sl sl1 : ServiceList)
    (h : handleListFilter f sl = some sl1) :
    (f = "all".toList ∧ sl1.Services = sl.Services) ∨
    (f = "running".toList ∧ sl1.Services = GetByStatus sl StatusRunning) ∨
    (f = "failed".toList ∧ sl1.Services = GetByStatus sl StatusFailed) ∨
    (f = "stopped".toList ∧ sl1.Services = GetByStatus sl StatusStopped) := by
  unfold handleListFilter at h
  split_ifs at h with h0 h1 h2 h3
  · simp only [Option.some.injEq] at h
    exact Or.inr (Or.inl ⟨h1, by rw [← h]; rfl⟩)
  · simp only [Option.some.injEq] at h
    exact Or.inr (Or.inr (Or.inl ⟨h2, by rw [← h]; rfl⟩))
  · simp only [Option.some.injEq] at h
    exact Or.inr (Or.inr (Or.inr ⟨h3, by rw [← h]; rfl⟩))
  · simp only [Option.some.injEq] at h
    exact Or.inl ⟨not_not.1 h0, by rw [← h]⟩

set_option maxRecDepth 100000 in
/-- C14, refuted as stated: a listing with one running and one failed row,
filtered by `running`: one entry remains and it is not Failed, yet Total is 2,
Failed is 1, `HasFailures` is true and the exit code is 1. -/
theorem handleList_counters_counterexample :
    handleList sampleEnv "running".toList (.ok
        ("ssh.service loaded active running OpenSSH\n" ++
         "bad.service loaded failed failed Bad").toList)
      = (some { Services := [rowEntry sampleEnv
                  "ssh.service loaded active running OpenSSH".toList],
                Timestamp := 0, Total := 2, Running := 1, Failed := 1, Stopped := 0 }, 1) ∧
    (rowEntry sampleEnv "ssh.service loaded active running OpenSSH".toList).Status
      = StatusRunning ∧
    HasFailures { Services := [rowEntry sampleEnv
                    "ssh.service loaded active running OpenSSH".toList],
                  Timestamp := 0, Total := 2, Running := 1, Failed := 1, Stopped := 0 }
      = true := by
  decide

/-- C14, amended: the filtering step of the list command replaces the entry
sequence by the entries of the chosen status and leaves the counters as they
were: after it Total, Running, Failed and Stopped are the counts over the
entries of the unfiltered listing, the footer numbers are those of the
unfiltered listing, and `HasFailures` (hence exit code 1) holds exactly when
the unfiltered listing has a Failed entry. -/
theorem handleList_counters (env : Env) (cmd : CmdResult) (f : Str) (sl sl1 : ServiceList)
    (h : ListServices env cmd = Outcome.ok sl) (hf : handleListFilter f sl = some sl1) :
    ((f = "all".toList ∧ sl1.Services = sl.Services) ∨
      (f = "running".toList ∧ sl1.Services = GetByStatus sl StatusRunning) ∨
      (f = "failed".toList ∧ sl1.Services = GetByStatus sl StatusFailed) ∨
      (f = "stopped".toList ∧ sl1.Services = GetByStatus sl StatusStopped)) ∧
    sl1.Total = (sl.Services.length : Int) ∧
    sl1.Running = ((GetByStatus sl StatusRunning).length : Int) ∧
    sl1.Failed = ((GetByStatus sl StatusFailed).length : Int) ∧
    sl1.Stopped = ((GetByStatus sl StatusStopped).length : Int) ∧
    printFooter sl1 = printFooter sl ∧
    (HasFailures sl1 = true ↔ ∃ x ∈ sl.Services, x.Status = StatusFailed) ∧
    handleList env f cmd
      = (some sl1, if ∃ x ∈ sl.Services, x.Status = StatusFailed then 1 else 0) := by
  obtain ⟨hT, hR, hF, hS⟩ := listServices_consistent env cmd sl h
  obtain ⟨cT, cR, cF, cS, _⟩ := handleListFilter_counters f sl sl1 hf
  have hfail : HasFailures sl1 = true ↔ ∃ x ∈ sl.Services, x.Status = StatusFailed := by
    unfold HasFailures
    rw [cF, hF, decide_eq_true_eq, gt_iff_lt, Nat.cast_pos, List.length_pos]
    constructor
    · intro hne
      obtain ⟨y, hy⟩ := List.exists_mem_of_ne_nil _ hne
      rw [List.mem_filter] at hy
      exact ⟨y, hy.1, by simpa using hy.2⟩
    · rintro ⟨y, hy, hst⟩
      apply List.ne_nil_of_mem (a := y)
      rw [List.mem_filter]
      exact ⟨hy, by simpa using hst⟩
  refine ⟨handleListFilter_services f sl sl1 hf, by rw [cT, hT], by rw [cR, hR]; rfl,
    by rw [cF, hF]; rfl, by rw [cS, hS]; rfl, ?_, hfail, ?_⟩
  · unfold printFooter
    rw [cT, cR, cF, cS]
  · unfold handleList
    simp only [h, hf]
    by_cases hx : ∃ x ∈ sl.Services, x.Status = StatusFailed
    · rw [if_pos hx, if_pos (hfail.2 hx)]
    · rw [if_neg hx, if_neg (fun hh => hx (hfail.1 hh))]

set_option maxRecDepth 100000 in
/-- C14 (amended) at a listing with one running and one failed row filtered by
`running`: the counters are those of the two rows and the exit code is 1. -/
theorem handleList_counters_witness :
    ∃ sl1, handleList sampleEnv "running".toList (.ok
        ("ssh.service loaded active running OpenSSH\n" ++
         "bad.service loaded failed failed Bad").toList) = (some sl1, 1) ∧
      sl1.Total = 2 ∧ sl1.Failed = 1 ∧ sl1.Services.length = 1 := by
  obtain ⟨_, hT, _, hF, _, _, _, hh⟩ := handleList_counters sampleEnv
    (.ok ("ssh.service loaded active running OpenSSH\n" ++
      "bad.service loaded failed failed Bad").toList) "running".toList
    (AddService (AddService (NewServiceList sampleEnv)
      (rowEntry sampleEnv "ssh.service loaded active running OpenSSH".toList))
      (rowEntry sampleEnv "bad.service loaded failed failed Bad".toList))
    { Services := [rowEntry sampleEnv "ssh.service loaded active running OpenSSH".toList],
      Timestamp := 0, Total := 2, Running := 1, Failed := 1, Stopped := 0 }
    (by decide) (by decide)
  exact ⟨_, hh.trans (by decide), hT.trans (by decide), hF.trans (by decide), by decide⟩

/-! ### The uptime of a status query -/

theorem calculateUptime_eq (env : Env) (t : Str) :
    calculateUptime env t = (normalizeTimestamp env t).map (timeSince env) := by
  unfold calculateUptime normalizeTimestamp
  cases parseWithFormats env t uptimeFormats with
  | some st => rfl
  | none =>
    cases ParseInt64 t with
    | some u => rfl
    | none => rfl

theorem applyField_keeps (env : Env) (key value : Str) (st st1 : StatusVars)
    (h : applyField env key value st = Outcome.ok st1) :
    st1.serviceInfo.Uptime = st.serviceInfo.Uptime ∧
    (key ≠ "ActiveEnterTimestamp".toList → st1.activeEnterTime = st.activeEnterTime) ∧
    (key = "ActiveEnterTimestamp".toList → st1.activeEnterTime = value) := by
  unfold applyField at h
  split_ifs at h with h1 h2 h3 h4 h5
  · injection h with h
    subst h
    exact ⟨rfl, fun _ => rfl, fun hk => absurd (h1.symm.trans hk) (by decide)⟩
  · injection h with h
    subst h
    exact ⟨rfl, fun _ => rfl, fun hk => absurd (h2.symm.trans hk) (by decide)⟩
  · have hk : key ≠ "ActiveEnterTimestamp".toList := by rw [h3]; decide
    cases hp : Atoi value with
    | none =>
      rw [hp] at h
      injection h with h
      subst h
      exact ⟨rfl, fun _ => rfl, fun hk2 => absurd hk2 hk⟩
    | some pid =>
      rw [hp] at h
      injection h with h
      subst h
      exact ⟨rfl, fun _ => rfl, fun hk2 => absurd hk2 hk⟩
  · have hk : key ≠ "ActiveEnterTimestamp".toList := by rw [h4]; decide
    cases hp : ParseInt64 value with
    | none =>
      rw [hp] at h
      injection h with h
      subst h
      exact ⟨rfl, fun _ => rfl, fun hk2 => absurd hk2 hk⟩
    | some n =>
      rw [hp] at h
      cases hm : formatMemory env n with
      | ok text =>
        simp only [hm] at h
        injection h with h
        subst h
        exact ⟨rfl, fun _ => rfl, fun hk2 => absurd hk2 hk⟩
      | error err => simp only [hm] at h; exact Outcome.noConfusion h
      | abort => simp only [hm] at h; exact Outcome.noConfusion h
  · injection h with h
    subst h
    exact ⟨rfl, fun hk => absurd h5 hk, fun _ => rfl⟩
  · injection h with h
    subst h
    exact ⟨rfl, fun _ => rfl, fun hk => absurd hk h5⟩

theorem statusLine_enter (env : Env) (st st1 : StatusVars) (raw : Str)
    (h : statusLine env st raw = Outcome.ok st1) :
    st1.serviceInfo.Uptime = st.serviceInfo.Uptime ∧
    st1.activeEnterTime = enterTimeStep st.activeEnterTime raw := by
  have ekey : "ActiveEnterTimestamp=".toList = "ActiveEnterTimestamp".toList ++ ['='] := by
    decide
  have hno : '=' ∉ "ActiveEnterTimestamp".toList := by decide
  unfold statusLine at h
  unfold enterTimeStep
  generalize TrimSpace raw = line at h ⊢
  by_cases hnil : line = []
  · simp only [hnil, if_true] at h
    injection h with h
    subst h
    subst hnil
    exact ⟨rfl, by rw [if_neg (by decide)]⟩
  · simp only [hnil, if_false] at h
    have hsplit : SplitN line "=".toList 2 = genSplit ['='] 1 line := by simp [SplitN]
    rw [hsplit] at h
    cases hi : indexFrom ['='] line with
    | none =>
      simp only [genSplit, hi] at h
      simp only [List.length_singleton, ne_eq, OfNat.one_ne_ofNat, not_false_eq_true,
        if_true] at h
      injection h with h
      subst h
      refine ⟨rfl, ?_⟩
      rw [if_neg]
      intro hp
      obtain ⟨t, ht⟩ := (hasPrefix_iff _ _).1 hp
      apply mem_of_indexFrom_char_ne_none '=' line hi
      rw [ht, ekey]
      simp
    | some m =>
      simp only [genSplit, hi] at h
      simp only [List.length_cons, List.length_singleton, List.length_nil, ne_eq,
        not_true_eq_false, if_false, List.getD_cons_zero, List.getD_cons_succ] at h
      obtain ⟨hfs, _⟩ := firstSplit_of_indexFrom hi
      obtain ⟨hU, hother, hkey⟩ := applyField_keeps env _ _ st st1 h
      refine ⟨hU, ?_⟩
      by_cases hk : line.take m = "ActiveEnterTimestamp".toList
      · have hline : line = "ActiveEnterTimestamp".toList ++ ['='] ++ line.drop (m + 1) := by
          have := hfs.1
          rw [hk] at this
          exact this
        have hpre : HasPrefix line "ActiveEnterTimestamp=".toList = true := by
          rw [hasPrefix_iff, ekey]
          exact ⟨_, hline⟩
        rw [if_pos hpre, hkey hk]
        have hm : m = 20 := by
          have h1 := congrArg List.length hk
          have h2 := congrArg List.length hline
          simp only [List.length_take, List.length_append, List.length_drop,
            List.length_cons, List.length_nil] at h1 h2
          have h3 : "ActiveEnterTimestamp".toList.length = 20 := by decide
          omega
        rw [hm]
      · rw [hother hk, if_neg]
        intro hp
        apply hk
        obtain ⟨t, ht⟩ := (hasPrefix_iff _ _).1 hp
        rw [ekey] at ht
        have hfs2 := firstSplit_char '=' "ActiveEnterTimestamp".toList t hno
        rw [← ht] at hfs2
        have := indexFrom_of_firstSplit hfs2
        rw [hi] at this
        injection this with this
        rw [this, ht, List.append_assoc, List.take_left]

theorem statusLoop_enter (env : Env) (lines : List Str) :
    ∀ st st1 : StatusVars, statusLoop env lines st = Outcome.ok st1 →
      st1.serviceInfo.Uptime = st.serviceInfo.Uptime ∧
      st1.activeEnterTime = lines.foldl enterTimeStep st.activeEnterTime := by
  induction lines with
  | nil =>
    intro st st1 h
    simp only [statusLoop] at h
    injection h with h
    subst h
    exact ⟨rfl, rfl⟩
  | cons raw rest ih =>
    intro st st1 h
    simp only [statusLoop] at h
    cases hl : statusLine env st raw with
    | ok st2 =>
      rw [hl] at h
      obtain ⟨h1, h2⟩ := statusLine_enter env st st2 raw hl
      obtain ⟨h3, h4⟩ := ih st2 st1 h
      exact ⟨h3.trans h1, by rw [h4, h2]; rfl⟩
    | error err => rw [hl] at h; exact Outcome.noConfusion h
    | abort => rw [hl] at h; exact Outcome.noConfusion h

theorem uptime_of_status_text (env : Env) (name output : Str) (info : ServiceInfo)
    (h : GetServiceStatus env name (fun _ => Except.ok output) = Outcome.ok info) :
    info.Uptime =
      if enterTimeOf (Split output "\n".toList) ≠ [] ∧
          enterTimeOf (Split output "\n".toList) ≠ "0".toList then
        match calculateUptime env (enterTimeOf (Split output "\n".toList)) with
        | some uptime => uptime
        | none => 0
      else 0 := by
  unfold GetServiceStatus at h
  dsimp only at h
  generalize (if ¬ HasSuffix name ".service".toList = true then name ++ ".service".toList
    else name) = nm at h
  split at h
  · exact Outcome.noConfusion h
  · exact Outcome.noConfusion h
  · rename_i st hloop
    obtain ⟨hU, hA⟩ := statusLoop_enter env _ _ st hloop
    have hU0 : st.serviceInfo.Uptime = 0 := hU
    have hA0 : st.activeEnterTime = enterTimeOf (Split output "\n".toList) := hA
    injection h with h
    rw [← h, ← hA0]
    split_ifs with hc
    · cases hcu : calculateUptime env st.activeEnterTime with
      | some u => rfl
      | none => exact hU0
    · exact hU0

theorem enterTime_absent (lines : List Str) (cur : Str)
    (h : ∀ l ∈ lines, HasPrefix (TrimSpace l) "ActiveEnterTimestamp=".toList = false) :
    lines.foldl enterTimeStep cur = cur := by
  induction lines generalizing cur with
  | nil => rfl
  | cons l rest ih =>
    rw [List.foldl_cons, ih _ (fun x hx => h x (List.mem_cons_of_mem _ hx))]
    unfold enterTimeStep
    rw [h l (List.mem_cons_self _ _)]
    rfl

theorem timeSub_sign (t u : Int) :
    (t < u → timeSub t u < 0) ∧ (u ≤ t → 0 ≤ timeSub t u) := by
  have e : (2 : Int) ^ 63 = 9223372036854775808 := by norm_num
  unfold timeSub
  rw [e]
  constructor
  · intro h
    split_ifs with h1 h2 <;> omega
  · intro h
    split_ifs with h1 h2 <;> omega

set_option maxRecDepth 100000 in
/-- C11, refuted as stated: observed 1 700 000 000 seconds after the epoch, a
status text whose `ActiveEnterTimestamp` is the microsecond count of an instant
100 000 000 seconds later gives a ServiceInfo with a negative Uptime. -/
theorem getServiceStatus_uptime_counterexample :
    GetServiceStatus laterEnv "ssh".toList
        (fun _ => Except.ok "ActiveState=active\nActiveEnterTimestamp=1800000000000000".toList)
      = Outcome.ok { Name := "ssh.service".toList, Status := StatusUnknown,
                     ActiveState := "active".toList, SubState := [],
                     Uptime := -100000000000000000, PID := 0, MemoryUsage := [],
                     CheckedAt := 1700000000000000000 } ∧
    (-100000000000000000 : Int) < 0 := by
  decide

/-- C11, amended: the Uptime of the ServiceInfo returned by `GetServiceStatus`
is zero when the status text has no `ActiveEnterTimestamp` line, or when the
value of its last such line is empty, the literal `0`, or cannot be normalized;
otherwise it is the observation time minus the normalized enter time (as a
saturating duration), which is non-negative when the enter time is not after
the observation time and negative when it is. -/
theorem getServiceStatus_uptime (env : Env) (name output : Str) (info : ServiceInfo)
    (h : GetServiceStatus env name (fun _ => Except.ok output) = Outcome.ok info) :
    ((∀ l ∈ Split output "\n".toList,
        HasPrefix (TrimSpace l) "ActiveEnterTimestamp=".toList = false) → info.Uptime = 0) ∧
    ((enterTimeOf (Split output "\n".toList) = [] ∨
        enterTimeOf (Split output "\n".toList) = "0".toList ∨
        normalizeTimestamp env (enterTimeOf (Split output "\n".toList)) = none) →
      info.Uptime = 0) ∧
    (∀ start : Time, enterTimeOf (Split output "\n".toList) ≠ [] →
      enterTimeOf (Split output "\n".toList) ≠ "0".toList →
      normalizeTimestamp env (enterTimeOf (Split output "\n".toList)) = some start →
      info.Uptime = timeSub env.now start ∧
        (start ≤ env.now → 0 ≤ info.Uptime) ∧ (env.now < start → info.Uptime < 0)) := by
  have heq := uptime_of_status_text env name output info h
  rw [calculateUptime_eq] at heq
  have hzero : (enterTimeOf (Split output "\n".toList) = [] ∨
        enterTimeOf (Split output "\n".toList) = "0".toList ∨
        normalizeTimestamp env (enterTimeOf (Split output "\n".toList)) = none) →
      info.Uptime = 0 := by
    intro hc
    rw [heq]
    split_ifs with hcond
    · rcases hc with hc | hc | hc
      · exact absurd hc hcond.1
      · exact absurd hc hcond.2
      · rw [hc]
        rfl
    · rfl
  refine ⟨fun habs => hzero (Or.inl (enterTime_absent _ [] habs)), hzero, ?_⟩
  intro start h1 h2 hn
  have hU : info.Uptime = timeSub env.now start := by
    rw [heq, if_pos ⟨h1, h2⟩, hn]
    rfl
  rw [hU]
  exact ⟨rfl, (timeSub_sign env.now start).2, (timeSub_sign env.now start).1⟩

set_option maxRecDepth 100000 in
/-- C11 (amended) at three status texts observed at the epoch: no enter time,
the enter time `0`, and an enter time of 5 seconds before the epoch given in
microseconds, for which the Uptime is 5 seconds. -/
theorem getServiceStatus_uptime_witness :
    (∃ info, GetServiceStatus sampleEnv "ssh".toList
        (fun _ => Except.ok "ActiveState=active\nSubState=running".toList) = Outcome.ok info ∧
      info.Uptime = 0) ∧
    (∃ info, GetServiceStatus sampleEnv "ssh".toList
        (fun _ => Except.ok "ActiveEnterTimestamp=0".toList) = Outcome.ok info ∧
      info.Uptime = 0) ∧
    (∃ info, GetServiceStatus sampleEnv "ssh".toList
        (fun _ => Except.ok "ActiveEnterTimestamp=-5000000".toList) = Outcome.ok info ∧
      info.Uptime = 5000000000) :=
  ⟨⟨_, rfl, (getServiceStatus_uptime sampleEnv "ssh".toList
      "ActiveState=active\nSubState=running".toList _ rfl).1 (by decide)⟩,
    ⟨_, rfl, (getServiceStatus_uptime sampleEnv "ssh".toList
      "ActiveEnterTimestamp=0".toList _ rfl).2.1 (Or.inr (Or.inl (by decide)))⟩,
    ⟨_, rfl, ((getServiceStatus_uptime sampleEnv "ssh".toList
      "ActiveEnterTimestamp=-5000000".toList _ rfl).2.2 (-5000000000)
      (by decide) (by decide) (by decide)).1.trans (by decide)⟩⟩

/-! ### The stream worker and its channels -/

theorem sentEntries_append (a b : List StreamEvent) :
    sentEntries (a ++ b) = sentEntries a ++ sentEntries b := by
  induction a with
  | nil => rfl
  | cons ev rest ih => cases ev <;> simp [sentEntries, ih]

theorem sentErrors_append (a b : List StreamEvent) :
    sentErrors (a ++ b) = sentErrors a ++ sentErrors b := by
  induction a with
  | nil => rfl
  | cons ev rest ih => cases ev <;> simp [sentErrors, ih]

theorem streamLoop_sends (env : Env) (svc : Str) (opts : Option LogOptions) (lines : List Str) :
    ∀ ev ∈ streamLoop env svc opts lines, ∃ e, ev = StreamEvent.sendEntry e := by
  induction lines with
  | nil => intro ev hev; simp [streamLoop] at hev
  | cons l rest ih =>
    intro ev hev
    simp only [streamLoop] at hev
    split_ifs at hev with h
    · exact ih ev hev
    · rcases List.mem_cons.1 hev with h1 | h1
      · exact ⟨_, h1⟩
      · exact ih ev h1

theorem sentErrors_of_sends (sends : List StreamEvent)
    (h : ∀ ev ∈ sends, ∃ e, ev = StreamEvent.sendEntry e) : sentErrors sends = [] := by
  induction sends with
  | nil => rfl
  | cons ev rest ih =>
    obtain ⟨e, he⟩ := h ev (List.mem_cons_self _ _)
    subst he
    simp only [sentErrors]
    exact ih (fun x hx => h x (List.mem_cons_of_mem _ hx))

theorem streamLoop_entries (env : Env) (svc : Str) (opts : Option LogOptions)
    (lines : List Str) :
    sentEntries (streamLoop env svc opts lines)
      = (lines.map (fun line => parseJournalLine env line svc)).filter (streamKeep env opts) := by
  induction lines with
  | nil => rfl
  | cons l rest ih =>
    simp only [streamLoop, List.map_cons, List.filter_cons]
    by_cases hg : grepSet opts = true
    · by_cases hm : grepMatch env (grepOf opts) (parseJournalLine env l svc) = true
      · have hk : streamKeep env opts (parseJournalLine env l svc) = true := by
          simp only [streamKeep, hg, hm, Bool.not_true, Bool.false_or]
        have hc : ¬ (grepSet opts = true ∧
            ¬ Contains (ToLower env.lowerTable (parseJournalLine env l svc).Message)
              (ToLower env.lowerTable (grepOf opts)) = true) := fun hh => hh.2 hm
        rw [if_neg hc, if_pos hk]
        simp only [sentEntries, ih]
      · have hk : ¬ streamKeep env opts (parseJournalLine env l svc) = true := by
          simp only [streamKeep, hg, Bool.not_true, Bool.false_or]
          exact hm
        have hc : grepSet opts = true ∧
            ¬ Contains (ToLower env.lowerTable (parseJournalLine env l svc).Message)
              (ToLower env.lowerTable (grepOf opts)) = true := ⟨hg, hm⟩
        rw [if_pos hc, if_neg hk]
        exact ih
    · have hgf : grepSet opts = false := by
        cases hh : grepSet opts with
        | true => exact absurd hh hg
        | false => rfl
      have hk : streamKeep env opts (parseJournalLine env l svc) = true := by
        simp only [streamKeep, hgf, Bool.not_false, Bool.true_or]
      rw [if_neg (fun hh => hg hh.1), if_pos hk]
      simp only [sentEntries, ih]

theorem streamWorker_shape (env : Env) (svc : Str) (opts : Option LogOptions)
    (lines : List Str) (scanErr : Option Str) :
    streamWorker env svc opts lines scanErr
      = streamLoop env svc opts lines ++ errorPart scanErr ++
        [StreamEvent.waitCmd, StreamEvent.closeErr, StreamEvent.closeLog] := by
  unfold streamWorker errorPart
  cases scanErr <;> rfl

theorem streamWorker_entries (env : Env) (svc : Str) (opts : Option LogOptions)
    (lines : List Str) (scanErr : Option Str) :
    sentEntries (streamWorker env svc opts lines scanErr)
      = (lines.map (fun line => parseJournalLine env line svc)).filter (streamKeep env opts) := by
  rw [streamWorker_shape, sentEntries_append, sentEntries_append, streamLoop_entries]
  cases scanErr <;> simp [errorPart, sentEntries]

theorem streamWorker_errors (env : Env) (svc : Str) (opts : Option LogOptions)
    (lines : List Str) (scanErr : Option Str) :
    sentErrors (streamWorker env svc opts lines scanErr)
      = (match scanErr with
         | some err => [err]
         | none => []) := by
  rw [streamWorker_shape, sentErrors_append, sentErrors_append,
    sentErrors_of_sends _ (streamLoop_sends env svc opts lines)]
  cases scanErr <;> simp [errorPart, sentErrors]

theorem streamInv_init (trace : List StreamEvent) : StreamInv trace (streamInit trace) :=
  ⟨[], rfl, rfl, rfl, rfl, rfl, Nat.zero_le _, fun h => Bool.noConfusion h⟩

theorem streamInv_worker (trace : List StreamEvent) (s : StreamState)
    (h : StreamInv trace s) : StreamInv trace (workerStep s) := by
  obtain ⟨done, ht, hl, he, hr, hc, hcap, hsaw⟩ := h
  obtain ⟨todo, logChan, logClosed, errChan, errClosed, received, sawClosed⟩ := s
  simp only at ht hl he hr hc hcap hsaw
  cases todo with
  | nil => exact ⟨done, ht, hl, he, hr, hc, hcap, hsaw⟩
  | cons ev rest =>
    have ht2 : trace = (done ++ [ev]) ++ rest := by rw [ht]; simp
    have hns : sawClosed = false := by
      cases hh : sawClosed with
      | false => rfl
      | true => exact absurd (hsaw hh).2.2 (by simp)
    have hsaw2 : sawClosed = true → False := fun hh => by rw [hns] at hh; exact Bool.noConfusion hh
    cases ev with
    | sendEntry e =>
      simp only [workerStep]
      split_ifs with hlen
      · refine ⟨done ++ [StreamEvent.sendEntry e], ht2, ?_, ?_, ?_, ?_, ?_, ?_⟩
        · simp [hl]
        · simp [he]
        · simp only [sentEntries_append, sentEntries, ← hr, List.append_assoc]
        · simp only [sentErrors_append, sentErrors, hc, List.append_nil]
        · simp only [List.length_append, List.length_singleton]
          omega
        · intro hs
          exact absurd hs (fun hh => hsaw2 hh)
      · exact ⟨done, ht, hl, he, hr, hc, hcap, hsaw⟩
    | sendErr err =>
      simp only [workerStep]
      split_ifs with hlen
      · refine ⟨done ++ [StreamEvent.sendErr err], ht2, ?_, ?_, ?_, ?_, hcap, ?_⟩
        · simp [hl]
        · simp [he]
        · simp only [sentEntries_append, sentEntries, hr, List.append_nil]
        · simp only [sentErrors_append, sentErrors, hc]
        · intro hs
          exact absurd hs (fun hh => hsaw2 hh)
      · exact ⟨done, ht, hl, he, hr, hc, hcap, hsaw⟩
    | waitCmd =>
      simp only [workerStep]
      refine ⟨done ++ [StreamEvent.waitCmd], ht2, ?_, ?_, ?_, ?_, hcap, ?_⟩
      · simp [hl]
      · simp [he]
      · simp only [sentEntries_append, sentEntries, hr, List.append_nil]
      · simp only [sentErrors_append, sentErrors, hc, List.append_nil]
      · intro hs
        exact absurd hs (fun hh => hsaw2 hh)
    | closeErr =>
      simp only [workerStep]
      refine ⟨done ++ [StreamEvent.closeErr], ht2, ?_, ?_, ?_, ?_, hcap, ?_⟩
      · simp [hl]
      · simp
      · simp only [sentEntries_append, sentEntries, hr, List.append_nil]
      · simp only [sentErrors_append, sentErrors, hc, List.append_nil]
      · intro hs
        exact absurd hs (fun hh => hsaw2 hh)
    | closeLog =>
      simp only [workerStep]
      refine ⟨done ++ [StreamEvent.closeLog], ht2, ?_, ?_, ?_, ?_, hcap, ?_⟩
      · simp
      · simp [he]
      · simp only [sentEntries_append, sentEntries, hr, List.append_nil]
      · simp only [sentErrors_append, sentErrors, hc, List.append_nil]
      · intro hs
        exact absurd hs (fun hh => hsaw2 hh)

theorem streamInv_consumer (trace : List StreamEvent) (s : StreamState)
    (hlast : ∀ done todo, trace = done ++ todo → StreamEvent.closeLog ∈ done → todo = [])
    (h : StreamInv trace s) : StreamInv trace (consumerStep s) := by
  obtain ⟨done, ht, hl, he, hr, hc, hcap, hsaw⟩ := h
  obtain ⟨todo, logChan, logClosed, errChan, errClosed, received, sawClosed⟩ := s
  simp only at ht hl he hr hc hcap hsaw
  cases logChan with
  | nil =>
    simp only [consumerStep]
    split_ifs with hcl
    · refine ⟨done, ht, hl, he, hr, hc, hcap, fun _ => ⟨hcl, rfl, ?_⟩⟩
      apply hlast done todo ht
      rw [hl, decide_eq_true_eq] at hcl
      exact hcl
    · exact ⟨done, ht, hl, he, hr, hc, hcap, hsaw⟩
  | cons e buf =>
    simp only [consumerStep]
    refine ⟨done, ht, hl, he, ?_, hc, ?_, ?_⟩
    · simp only [← hr, List.append_assoc, List.singleton_append]
    · simp only [List.length_cons] at hcap
      show buf.length ≤ 100
      omega
    · intro hs
      exact absurd (hsaw hs).2.1 (by simp)

theorem streamInv_run (trace : List StreamEvent)
    (hlast : ∀ done todo, trace = done ++ todo → StreamEvent.closeLog ∈ done → todo = [])
    (schedule : List Actor) :
    ∀ s, StreamInv trace s → StreamInv trace (runSchedule schedule s) := by
  induction schedule with
  | nil => intro s h; exact h
  | cons a rest ih =>
    intro s h
    cases a with
    | worker => exact ih _ (streamInv_worker trace s h)
    | consumer => exact ih _ (streamInv_consumer trace s hlast h)

theorem suffix_of_mem (x : StreamEvent) (done todo B t : List StreamEvent)
    (h : done ++ todo = B ++ t) (hx : x ∈ done) (hB : x ∉ B) :
    ∃ c, c ≠ [] ∧ t = c ++ todo := by
  rcases List.append_eq_append_iff.1 h with ⟨a1, hB1, _⟩ | ⟨c1, hd, ht⟩
  · exfalso
    apply hB
    rw [hB1]
    exact List.mem_append_left _ hx
  · refine ⟨c1, ?_, ht⟩
    intro hnil
    apply hB
    rw [hnil, List.append_nil] at hd
    rw [← hd]
    exact hx

theorem streamWorker_body_events (env : Env) (svc : Str) (opts : Option LogOptions)
    (lines : List Str) (scanErr : Option Str) :
    StreamEvent.closeErr ∉ streamLoop env svc opts lines ++ errorPart scanErr ++
        [StreamEvent.waitCmd] ∧
    StreamEvent.closeLog ∉ streamLoop env svc opts lines ++ errorPart scanErr ++
        [StreamEvent.waitCmd, StreamEvent.closeErr] := by
  have h1 : ∀ ev ∈ streamLoop env svc opts lines,
      ev ≠ StreamEvent.closeErr ∧ ev ≠ StreamEvent.closeLog := by
    intro ev hev
    obtain ⟨e, he⟩ := streamLoop_sends env svc opts lines ev hev
    subst he
    exact ⟨fun h => StreamEvent.noConfusion h, fun h => StreamEvent.noConfusion h⟩
  have h2 : ∀ ev ∈ errorPart scanErr,
      ev ≠ StreamEvent.closeErr ∧ ev ≠ StreamEvent.closeLog := by
    intro ev hev
    cases scanErr with
    | none => simp [errorPart] at hev
    | some err =>
      simp only [errorPart, List.mem_singleton] at hev
      subst hev
      exact ⟨fun h => StreamEvent.noConfusion h, fun h => StreamEvent.noConfusion h⟩
  constructor
  · intro hmem
    simp only [List.mem_append, List.mem_singleton] at hmem
    rcases hmem with (h | h) | h
    · exact (h1 _ h).1 rfl
    · exact (h2 _ h).1 rfl
    · exact StreamEvent.noConfusion h
  · intro hmem
    simp only [List.mem_append, List.mem_cons, List.mem_singleton, List.not_mem_nil,
      or_false] at hmem
    rcases hmem with (h | h) | h | h
    · exact (h1 _ h).2 rfl
    · exact (h2 _ h).2 rfl
    · exact StreamEvent.noConfusion h
    · exact StreamEvent.noConfusion h

theorem streamWorker_closeLast (env : Env) (svc : Str) (opts : Option LogOptions)
    (lines : List Str) (scanErr : Option Str) :
    ∀ done todo, streamWorker env svc opts lines scanErr = done ++ todo →
      StreamEvent.closeLog ∈ done → todo = [] := by
  intro done todo h hmem
  rw [streamWorker_shape] at h
  have h2 : done ++ todo = (streamLoop env svc opts lines ++ errorPart scanErr ++
      [StreamEvent.waitCmd, StreamEvent.closeErr]) ++ [StreamEvent.closeLog] := by
    rw [← h]
    simp
  obtain ⟨c, hc, ht⟩ := suffix_of_mem _ done todo _ _ h2 hmem
    (streamWorker_body_events env svc opts lines scanErr).2
  cases c with
  | nil => exact absurd rfl hc
  | cons x xs =>
    have hlen := congrArg List.length ht
    simp only [List.length_cons, List.length_nil, List.length_append] at hlen
    exact List.length_eq_zero.1 (by omega)

theorem streamWorker_after_closeErr (env : Env) (svc : Str) (opts : Option LogOptions)
    (lines : List Str) (scanErr : Option Str) :
    ∀ done todo, streamWorker env svc opts lines scanErr = done ++ todo →
      StreamEvent.closeErr ∈ done → todo = [StreamEvent.closeLog] ∨ todo = [] := by
  intro done todo h hmem
  rw [streamWorker_shape] at h
  have h2 : done ++ todo = (streamLoop env svc opts lines ++ errorPart scanErr ++
      [StreamEvent.waitCmd]) ++ [StreamEvent.closeErr, StreamEvent.closeLog] := by
    rw [← h]
    simp
  obtain ⟨c, hc, ht⟩ := suffix_of_mem _ done todo _ _ h2 hmem
    (streamWorker_body_events env svc opts lines scanErr).1
  cases c with
  | nil => exact absurd rfl hc
  | cons x xs =>
    cases xs with
    | nil =>
      simp only [List.singleton_append, List.cons.injEq] at ht
      exact Or.inl ht.2.symm
    | cons y ys =>
      have hlen := congrArg List.length ht
      simp only [List.length_cons, List.length_nil, List.length_append] at hlen
      exact Or.inr (List.length_eq_zero.1 (by omega))

/-- C15: the entries that the stream worker sends on the entry channel are, in
the order of the lines read, the parses of the lines that pass the grep test;
in every state that the worker and a draining consumer reach, what was received
followed by what is buffered and what is still to be sent is that sequence (so
nothing is dropped, duplicated or reordered), the buffer holds at most 100
entries, and once the consumer has seen the channel closed it has received all
of them. -/
theorem stream_delivery (env : Env) (svc : Str) (opts : Option LogOptions)
    (lines : List Str) (scanErr : Option Str) (schedule : List Actor) :
    sentEntries (streamWorker env svc opts lines scanErr)
      = (lines.map (fun line => parseJournalLine env line svc)).filter (streamKeep env opts) ∧
    (runSchedule schedule (streamInit (streamWorker env svc opts lines scanErr))).received ++
      (runSchedule schedule (streamInit (streamWorker env svc opts lines scanErr))).logChan ++
      sentEntries
        (runSchedule schedule (streamInit (streamWorker env svc opts lines scanErr))).todo
      = sentEntries (streamWorker env svc opts lines scanErr) ∧
    (runSchedule schedule
      (streamInit (streamWorker env svc opts lines scanErr))).logChan.length ≤ 100 ∧
    ((runSchedule schedule
        (streamInit (streamWorker env svc opts lines scanErr))).sawClosed = true →
      (runSchedule schedule (streamInit (streamWorker env svc opts lines scanErr))).received
        = (lines.map (fun line => parseJournalLine env line svc)).filter
            (streamKeep env opts)) := by
  have hinv := streamInv_run _ (streamWorker_closeLast env svc opts lines scanErr) schedule _
    (streamInv_init (streamWorker env svc opts lines scanErr))
  generalize runSchedule schedule (streamInit (streamWorker env svc opts lines scanErr)) = s
    at hinv
  obtain ⟨done, ht, hl, he, hr, hc, hcap, hsaw⟩ := hinv
  have hcons : s.received ++ s.logChan ++ sentEntries s.todo
      = sentEntries (streamWorker env svc opts lines scanErr) := by
    rw [hr, ht, sentEntries_append]
  refine ⟨streamWorker_entries env svc opts lines scanErr, hcons, hcap, ?_⟩
  intro hs
  obtain ⟨_, h2, h3⟩ := hsaw hs
  rw [h2, h3] at hcons
  rw [← streamWorker_entries env svc opts lines scanErr, ← hcons]
  simp [sentEntries]

/-- C15 at two lines with the pattern `err`: the worker sends the one matching
entry, and after a schedule that ends with the consumer seeing the closed
channel, the consumer has received exactly that entry. -/
theorem stream_delivery_witness :
    (runSchedule [Actor.worker, Actor.consumer, Actor.worker, Actor.worker, Actor.worker,
        Actor.consumer]
      (streamInit (streamWorker sampleEnv "ssh.service".toList
        (some { Lines := 0, Follow := true, Since := [], Until := [], Priority := [],
                Grep := "err".toList })
        ["host app[1]: disk ERROR".toList, "host app[1]: fine".toList] none))).received
      = [parseJournalLine sampleEnv "host app[1]: disk ERROR".toList "ssh.service".toList] :=
  ((stream_delivery sampleEnv "ssh.service".toList
      (some { Lines := 0, Follow := true, Since := [], Until := [], Priority := [],
              Grep := "err".toList })
      ["host app[1]: disk ERROR".toList, "host app[1]: fine".toList] none
      [Actor.worker, Actor.consumer, Actor.worker, Actor.worker, Actor.worker,
        Actor.consumer]).2.2.2 (by decide)).trans (by decide)

/-- C16, refuted as stated: two moves of the worker after a plain end of stream
reach a state in which the error channel is closed and the entry channel is
still open, so the entry channel is not closed first. -/
theorem stream_termination_counterexample :
    (runSchedule [Actor.worker, Actor.worker]
      (streamInit (streamWorker sampleEnv "ssh.service".toList none [] none))).errClosed = true ∧
    (runSchedule [Actor.worker, Actor.worker]
      (streamInit (streamWorker sampleEnv "ssh.service".toList none [] none))).logClosed = false ∧
    streamWorker sampleEnv "ssh.service".toList none [] none
      = [StreamEvent.waitCmd, StreamEvent.closeErr, StreamEvent.closeLog] := by
  decide

/-- C16, amended: the worker ends with its deferred calls in reverse order of
their registration, the wait for the process, the close of the error channel
and then the close of the entry channel, so the error channel is closed before
the entry channel; a read error is sent on the error channel exactly once,
after the entries and before that channel is closed, and nothing is sent on it
at a plain end of stream. -/
theorem stream_termination (env : Env) (svc : Str) (opts : Option LogOptions)
    (lines : List Str) (scanErr : Option Str) :
    (∃ sends, (∀ ev ∈ sends, ∃ e, ev = StreamEvent.sendEntry e) ∧
      streamWorker env svc opts lines scanErr
        = sends ++ errorPart scanErr ++
          [StreamEvent.waitCmd, StreamEvent.closeErr, StreamEvent.closeLog]) ∧
    sentErrors (streamWorker env svc opts lines scanErr)
      = (match scanErr with
         | some err => [err]
         | none => []) ∧
    (∀ schedule : List Actor,
      ((runSchedule schedule
          (streamInit (streamWorker env svc opts lines scanErr))).logClosed = true →
        (runSchedule schedule
          (streamInit (streamWorker env svc opts lines scanErr))).errClosed = true) ∧
      ((runSchedule schedule
          (streamInit (streamWorker env svc opts lines scanErr))).errClosed = true →
        (runSchedule schedule (streamInit (streamWorker env svc opts lines scanErr))).errChan
            = sentErrors (streamWorker env svc opts lines scanErr) ∧
          sentErrors (runSchedule schedule
            (streamInit (streamWorker env svc opts lines scanErr))).todo = [])) := by
  refine ⟨⟨_, streamLoop_sends env svc opts lines, streamWorker_shape env svc opts lines scanErr⟩,
    streamWorker_errors env svc opts lines scanErr, ?_⟩
  intro schedule
  have hinv := streamInv_run _ (streamWorker_closeLast env svc opts lines scanErr) schedule _
    (streamInv_init (streamWorker env svc opts lines scanErr))
  generalize runSchedule schedule (streamInit (streamWorker env svc opts lines scanErr)) = s
    at hinv
  obtain ⟨done, ht, hl, he, hr, hc, hcap, hsaw⟩ := hinv
  constructor
  · intro hlc
    rw [hl, decide_eq_true_eq] at hlc
    have htodo := streamWorker_closeLast env svc opts lines scanErr done s.todo ht hlc
    rw [htodo, List.append_nil] at ht
    rw [he, decide_eq_true_eq, ← ht, streamWorker_shape]
    simp
  · intro hec
    rw [he, decide_eq_true_eq] at hec
    have htodo := streamWorker_after_closeErr env svc opts lines scanErr done s.todo ht hec
    have hz : sentErrors s.todo = [] := by
      rcases htodo with h | h <;> rw [h] <;> rfl
    refine ⟨?_, hz⟩
    rw [hc, ht, sentErrors_append, hz, List.append_nil]

/-- C16 (amended) at a stream that ends with a read error after one line: once
the entry channel is closed the error channel is closed too and holds the one
error. -/
theorem stream_termination_witness :
    (runSchedule [Actor.worker, Actor.worker, Actor.worker, Actor.worker, Actor.worker]
      (streamInit (streamWorker sampleEnv "ssh.service".toList none
        ["host app[1]: started".toList] (some "read failed".toList)))).errClosed = true ∧
    (runSchedule [Actor.worker, Actor.worker, Actor.worker, Actor.worker, Actor.worker]
      (streamInit (streamWorker sampleEnv "ssh.service".toList none
        ["host app[1]: started".toList] (some "read failed".toList)))).errChan
      = ["read failed".toList] :=
  ⟨((stream_termination sampleEnv "ssh.service".toList none
      ["host app[1]: started".toList] (some "read failed".toList)).2.2
      [Actor.worker, Actor.worker, Actor.worker, Actor.worker, Actor.worker]).1 (by decide),
    (((stream_termination sampleEnv "ssh.service".toList none
      ["host app[1]: started".toList] (some "read failed".toList)).2.2
      [Actor.worker, Actor.worker, Actor.worker, Actor.worker, Actor.worker]).2
      (by decide)).1.trans (by decide)⟩

/-! ### The stream against the batch path -/

theorem journalLoop_trimmed (env : Env) (svc : Str) (lines : List Str)
    (h : ∀ l ∈ lines, TrimSpace l = l ∧ l ≠ []) :
    journalLoop env svc lines = lines.map (fun line => parseJournalLine env line svc) := by
  induction lines with
  | nil => rfl
  | cons l rest ih =>
    obtain ⟨h1, h2⟩ := h l (List.mem_cons_self _ _)
    simp only [journalLoop, h1, if_neg h2, List.map_cons]
    rw [ih (fun x hx => h x (List.mem_cons_of_mem _ hx))]

/-- On lines that carry no surrounding white space, are not empty and hold no
newline, the stream worker sends what the batch path returns for the joined
text. -/
theorem stream_eq_batch_of_trimmed (env : Env) (svc : Str) (opts : Option LogOptions)
    (lines : List Str) (scanErr : Option Str)
    (h : ∀ l ∈ lines, TrimSpace l = l ∧ l ≠ [] ∧ '\n' ∉ l) :
    sentEntries (streamWorker env svc opts lines scanErr)
      = batchEntries env svc opts (Join lines "\n".toList) := by
  have hparse : parseJournalOutput env (Join lines "\n".toList) svc
      = lines.map (fun line => parseJournalLine env line svc) := by
    unfold parseJournalOutput
    cases lines with
    | nil =>
      have : Split (Join [] "\n".toList) "\n".toList = [[]] := by decide
      rw [this]
      simp [journalLoop, TrimSpace, trimLeft, trimRight]
    | cons l ls =>
      have e : "\n".toList = ['\n'] := rfl
      rw [e, split_join '\n' l ls (fun x hx => (h x hx).2.2)]
      exact journalLoop_trimmed env svc _ (fun x hx => ⟨(h x hx).1, (h x hx).2.1⟩)
  rw [streamWorker_entries]
  unfold batchEntries
  rw [hparse]
  cases hg : grepSet opts with
  | true =>
    rw [if_pos rfl, filterLogs_eq_filter]
    congr 1
    funext e
    simp only [streamKeep, hg, Bool.not_true, Bool.false_or]
  | false =>
    rw [if_neg (by exact Bool.false_ne_true)]
    have : streamKeep env opts = fun _ => true := by
      funext e
      simp only [streamKeep, hg, Bool.not_false, Bool.true_or]
    rw [this, List.filter_true]

theorem getServiceLogs_ok (env : Env) (name : Str) (opts : Option LogOptions) (output : Str) :
    ∃ svc, GetServiceLogs env name opts (fun _ => Except.ok output)
      = Outcome.ok (batchEntries env svc opts output) := by
  unfold GetServiceLogs batchEntries
  exact ⟨_, rfl⟩

set_option maxRecDepth 100000 in
/-- C17, the code at the failing input: for a journal line, its indented
continuation line and an empty line, with no pattern set, the stream worker
sends three entries, with the messages `panic`, the continuation line with its
indentation, and the empty text, whereas the batch path returns two entries for
the joined text, with the messages `panic` and the continuation line without
its indentation. -/
theorem stream_batch_divergence :
    (match GetServiceLogsStream sampleEnv "ssh".toList none
        (fun _ => Launch.started
          ["Dec 22 19:32:42 msi app[1]: panic".toList, "    at main.go:12".toList, []] none) with
      | Outcome.ok trace => (sentEntries trace).map entryView
      | _ => [])
      = [("ssh.service".toList, "panic".toList, "info".toList),
         ("ssh.service".toList, "    at main.go:12".toList, "info".toList),
         ("ssh.service".toList, [], "info".toList)] ∧
    (match GetServiceLogs sampleEnv "ssh".toList none
        (fun _ => Except.ok (Join
          ["Dec 22 19:32:42 msi app[1]: panic".toList, "    at main.go:12".toList, []]
          "\n".toList)) with
      | Outcome.ok entries => entries.map entryView
      | _ => [])
      = [("ssh.service".toList, "panic".toList, "info".toList),
         ("ssh.service".toList, "at main.go:12".toList, "info".toList)] := by
  decide

end SystemdMonitoring
